import Mathlib

/-!
Verification of the Cavl intrusive AVL tree (single-header C library, src/cavl.h)
against its natural-language specification.

The C code is shallowly embedded: memory is a partial map from addresses (Nat)
to node records, NULL pointers are `Option.none`, and every C statement is
translated in source order, each reading the then-current memory.  Loops carry
an explicit fuel parameter; when the fuel runs out the loop returns its current
state, exactly as if the loop had exited at that point.
-/

namespace Cavl

/-- The node record of src/cavl.h: parent link, left/right child links, and
the signed balance factor.  The user `value` pointer is irrelevant to every
claim (the library never touches it) and is omitted. -/
structure Node where
  up  : Option Nat
  lr0 : Option Nat
  lr1 : Option Nat
  bf  : Int
deriving DecidableEq, Repr

/-- Side-indexed child access, mirroring the C `lr[2]` array indexed by a
boolean: `lr[0]` is the left child, `lr[1]` the right one. -/
def Node.lr (n : Node) (side : Bool) : Option Nat :=
  if side then n.lr1 else n.lr0

/-- Memory: a partial map from addresses to node records. -/
abbrev Mem := Nat → Option Node

/-- The record stored at an address; absent records read as a cleared node.
The C code never dereferences NULL on the paths we consider. -/
def Mem.get (m : Mem) (p : Nat) : Node :=
  (m p).getD ⟨none, none, none, 0⟩

/-- Overwrite the record at an address. -/
def Mem.set (m : Mem) (p : Nat) (n : Node) : Mem :=
  fun q => if q = p then some n else m q

/-- Field write `p->lr[side] = v`. -/
def Mem.setLr (m : Mem) (p : Nat) (side : Bool) (v : Option Nat) : Mem :=
  m.set p (if side then { m.get p with lr1 := v } else { m.get p with lr0 := v })

/-- Field write `p->up = v`. -/
def Mem.setUp (m : Mem) (p : Nat) (v : Option Nat) : Mem :=
  m.set p { m.get p with up := v }

/-- Field write `p->bf = v`. -/
def Mem.setBf (m : Mem) (p : Nat) (v : Int) : Mem :=
  m.set p { m.get p with bf := v }

/-- Build a memory from an association list of addresses and records. -/
def memOf (l : List (Nat × Node)) : Mem :=
  fun q => l.lookup q

/-- The loop of cavlFindExtremum: `result` is the last node visited, `c` the
cursor; while `c` is not NULL set `result := c` and descend to `c->lr[maximum]`. -/
def findExtremumLoop (m : Mem) (maximum : Bool) : Nat → Option Nat → Option Nat → Option Nat
  | 0, result, _ => result
  | fuel + 1, result, c =>
    match c with
    | none => result
    | some cp => findExtremumLoop m maximum fuel (some cp) ((m.get cp).lr maximum)

/-- cavlFindExtremum (src/cavl.h lines 79-89): descend along `lr[maximum]`
from `root`, returning the last node visited (NULL for an empty tree). -/
def cavlFindExtremum (m : Mem) (fuel : Nat) (root : Option Nat) (maximum : Bool) : Option Nat :=
  findExtremumLoop m maximum fuel none root

/-- The rotation primitive, translating src/cavl.h lines 95-112 statement by
statement; `_cavlRotate(x, r)` makes the child of `x` opposite to `r` the new
subtree root and returns it.  Each statement reads the then-current memory. -/
def cavlRotate (m0 : Mem) (x : Nat) (r : Bool) : Mem × Nat :=
  let z : Nat := ((m0.get x).lr (!r)).getD 0
  let m1 : Mem :=
    match (m0.get x).up with
    | some u => m0.setLr u (decide ((m0.get u).lr true = some x)) (some z)
    | none => m0
  let m2 : Mem := m1.setUp z ((m1.get x).up)
  let m3 : Mem := m2.setUp x (some z)
  let m4 : Mem := m3.setLr x (!r) ((m3.get z).lr r)
  let m5 : Mem :=
    match (m4.get x).lr (!r) with
    | some g => m4.setUp g x
    | none => m4
  let m6 : Mem := m5.setLr z r (some x)
  (m6, z)

/-- The balance-adjustment primitive, translating src/cavl.h lines 117-172.
Computes `new_bf = x->bf plus or minus one`; if it stays within the band it is
written back, otherwise the single- or double-rotation case runs and the
balance factors of the involved nodes are repainted. -/
def cavlAdjustBalance (m0 : Mem) (x : Nat) (increment : Bool) : Mem × Nat :=
  let new_bf : Int := (m0.get x).bf + (if increment then 1 else -1)
  if new_bf < -1 ∨ new_bf > 1 then
    let r : Bool := decide (new_bf < 0)
    let sign : Int := if r then 1 else -1
    let z : Nat := ((m0.get x).lr (!r)).getD 0
    if (m0.get z).bf * sign ≤ 0 then
      let res := cavlRotate m0 x r
      let m1 := res.1
      if (m1.get z).bf = 0 then
        (((m1.setBf x (-sign)).setBf z sign), res.2)
      else
        (((m1.setBf x 0).setBf z 0), res.2)
    else
      let y : Nat := ((m0.get z).lr r).getD 0
      let m1 := (cavlRotate m0 z (!r)).1
      let res := cavlRotate m1 x r
      let m2 := res.1
      if (m2.get y).bf * sign < 0 then
        ((((m2.setBf x sign).setBf y 0).setBf z 0), res.2)
      else if (m2.get y).bf * sign > 0 then
        ((((m2.setBf x 0).setBf y 0).setBf z (-sign)), res.2)
      else
        (((m2.setBf x 0).setBf z 0), res.2)
  else
    (m0.setBf x new_bf, x)

/-- The loop of _cavlRetraceOnGrowth (src/cavl.h lines 180-192): climb from
child `c` to parent `p`, adjusting balances, until the adjusted node is
perfectly balanced or the root is passed.  Returns the final memory, the last
adjusted node `c` and the final parent `p`. -/
def retraceGrowthLoop : Nat → Mem → Nat → Option Nat → Mem × Nat × Option Nat
  | 0, m, c, p => (m, c, p)
  | fuel + 1, m, c, p =>
    match p with
    | none => (m, c, none)
    | some pp =>
      let r : Bool := decide ((m.get pp).lr true = some c)
      let res := cavlAdjustBalance m pp r
      let c1 := res.2
      let p1 := (res.1.get c1).up
      if (res.1.get c1).bf = 0 then (res.1, c1, p1)
      else retraceGrowthLoop fuel res.1 c1 p1

/-- _cavlRetraceOnGrowth (src/cavl.h lines 177-195): returns the new root when
the climb passed the root, NULL otherwise. -/
def cavlRetraceOnGrowth (fuel : Nat) (m : Mem) (added : Nat) : Mem × Option Nat :=
  let res := retraceGrowthLoop fuel m added ((m.get added).up)
  (res.1, if res.2.2 = none then some res.2.1 else none)

/-- A write slot, mirroring the `Cavl** n` pointer of cavlSearch: either the
root reference itself or the `lr[side]` slot of a parent node. -/
inductive Slot where
  | root : Slot
  | child (p : Nat) (side : Bool) : Slot
deriving DecidableEq, Repr

/-- Read the pointer currently stored in a slot. -/
def slotGet (m : Mem) (rootv : Option Nat) : Slot → Option Nat
  | .root => rootv
  | .child p side => (m.get p).lr side

/-- Write a pointer through a slot, returning the new memory and root value. -/
def slotSet (m : Mem) (rootv : Option Nat) (v : Option Nat) :
    Slot → Mem × Option Nat
  | .root => (m, v)
  | .child p side => (m.setLr p side v, rootv)

/-- Outcome of the search walk of cavlSearch. -/
inductive SearchStep where
  | found (q : Nat) : SearchStep
  | empty (up : Option Nat) (n : Slot) : SearchStep
  | fuelOut : SearchStep
deriving DecidableEq, Repr

/-- The walk of cavlSearch (src/cavl.h lines 205-218): follow the three-way
predicate from the root slot; stop at a match or at the first empty slot,
remembering the would-be parent `up` and the empty slot `n`. -/
def searchLoop (m : Mem) (rootv : Option Nat) (pred : Nat → Int) :
    Nat → Option Nat → Slot → SearchStep
  | 0, _, _ => .fuelOut
  | fuel + 1, up, n =>
    match slotGet m rootv n with
    | none => .empty up n
    | some cur =>
      let cmp := pred cur
      if cmp = 0 then .found cur
      else searchLoop m rootv pred fuel (some cur) (.child cur (decide (cmp > 0)))

/-- Result of cavlSearch: final memory, final root-reference value, the
returned node, and whether the factory was invoked. -/
structure SearchResult where
  m : Mem
  rootv : Option Nat
  out : Option Nat
  factoryCalled : Bool

/-- cavlSearch (src/cavl.h lines 197-238).  The root reference is
`Option (Option Nat)`: `none` models a NULL `Cavl**`, `some rootv` a valid
reference currently holding `rootv`.  The predicate is `Option (Nat → Int)`
(`none` models a NULL function pointer); the factory `Option (Option Nat)`,
where the outer option models a NULL function pointer and the inner option is
the node the factory would return. -/
def cavlSearch (fuel : Nat) (m : Mem) (root : Option (Option Nat))
    (pred : Option (Nat → Int)) (factory : Option (Option Nat)) : SearchResult :=
  match root, pred with
  | some rootv, some pr =>
    match searchLoop m rootv pr fuel rootv .root with
    | .found q => ⟨m, rootv, some q, false⟩
    | .fuelOut => ⟨m, rootv, none, false⟩
    | .empty up n =>
      match factory with
      | none => ⟨m, rootv, none, false⟩
      | some none => ⟨m, rootv, none, true⟩
      | some (some out) =>
        let s1 := slotSet m rootv (some out) n
        let m1 := (s1.1.setLr out false none).setLr out true none
        let m2 := (m1.setUp out up).setBf out 0
        let res := cavlRetraceOnGrowth fuel m2 out
        match res.2 with
        | some rt => ⟨res.1, some rt, some out, true⟩
        | none => ⟨res.1, s1.2, some out, true⟩
  | _, _ => ⟨m, (root.getD none), none, false⟩

/-- The topology-update step of cavlRemove (src/cavl.h lines 244-293),
translated statement by statement.  Returns the new memory, the new root value,
and the retrace start `(p, r)`: the lowest parent whose subtree shrank and the
side that shrank. -/
def removeTopology (fuel : Nat) (m0 : Mem) (rootv : Option Nat) (node : Nat) :
    Mem × Option Nat × Option Nat × Bool :=
  if (m0.get node).lr0 ≠ none ∧ (m0.get node).lr1 ≠ none then
    let re : Nat := (cavlFindExtremum m0 fuel ((m0.get node).lr1) false).getD 0
    let p : Option Nat := (m0.get re).up
    let m1 : Mem := m0.setLr re false ((m0.get node).lr0)
    if p ≠ some node then
      let pp : Nat := p.getD 0
      let m2 : Mem := m1.setLr pp false ((m1.get re).lr1)
      let m3 : Mem := m2.setLr re true ((m2.get node).lr1)
      let m4 : Mem := m3.setUp re ((m3.get node).up)
      match (m4.get re).up with
      | some u =>
        (m4.setLr u (decide ((m4.get u).lr true = some node)) (some re), rootv, p, false)
      | none => (m4, some re, p, false)
    else
      let m4 : Mem := m1.setUp re ((m1.get node).up)
      match (m4.get re).up with
      | some u =>
        (m4.setLr u (decide ((m4.get u).lr true = some node)) (some re), rootv, p, true)
      | none => (m4, some re, p, true)
  else
    let p : Option Nat := (m0.get node).up
    let rr : Bool := decide ((m0.get node).lr1 ≠ none)
    let m1 : Mem :=
      match (m0.get node).lr rr with
      | some ch => m0.setUp ch ((m0.get node).up)
      | none => m0
    match p with
    | some pp =>
      let r : Bool := decide ((m1.get pp).lr true = some node)
      (m1.setLr pp r ((m1.get node).lr rr), rootv, p, r)
    | none => (m1, (m1.get node).lr rr, none, false)

/-- The retrace loop of cavlRemove (src/cavl.h lines 298-308): climb from `p`
adjusting balances in the shrink direction, until a node absorbs the height
change or the root is passed.  Returns the final memory, parent and `c`. -/
def removeRetraceLoop : Nat → Mem → Option Nat → Bool → Option Nat →
    Mem × Option Nat × Option Nat
  | 0, m, p, _, c => (m, p, c)
  | fuel + 1, m, p, r, c =>
    match p with
    | none => (m, none, c)
    | some pp =>
      let res := cavlAdjustBalance m pp (!r)
      let c1 := res.2
      let p1 := (res.1.get c1).up
      if (res.1.get c1).bf ≠ 0 ∨ p1 = none then (res.1, p1, some c1)
      else
        let r1 : Bool := decide ((res.1.get (p1.getD 0)).lr true = some c1)
        removeRetraceLoop fuel res.1 p1 r1 (some c1)

/-- cavlRemove (src/cavl.h lines 240-315).  The root reference is modelled as
in cavlSearch; the result is the final memory and root reference. -/
def cavlRemove (fuel : Nat) (m : Mem) (root : Option (Option Nat))
    (node : Option Nat) : Mem × Option (Option Nat) :=
  match root, node with
  | some rootv, some nd =>
    let t := removeTopology fuel m rootv nd
    let res := removeRetraceLoop fuel t.1 t.2.2.1 t.2.2.2 none
    match res.2.1, res.2.2 with
    | none, some cv => (res.1, some (some cv))
    | _, _ => (res.1, some t.2.1)
  | _, _ => (m, root)

/-- Height of the structure hanging off a pointer, with fuel (height of an
absent subtree is 0, otherwise one plus the maximum of the child heights). -/
def heightM (m : Mem) : Nat → Option Nat → Nat
  | 0, _ => 0
  | _ + 1, none => 0
  | fuel + 1, some p =>
    1 + max (heightM m fuel ((m.get p).lr0)) (heightM m fuel ((m.get p).lr1))

/-- All addresses reachable from a pointer through child links, with fuel. -/
def reachList (m : Mem) : Nat → Option Nat → List Nat
  | 0, _ => []
  | _ + 1, none => []
  | fuel + 1, some p =>
    p :: (reachList m fuel ((m.get p).lr0) ++ reachList m fuel ((m.get p).lr1))

/-- Executable checker for the documented invariants on the structure hanging
off the root reference: the root has no parent, every child points back to its
parent, every balance factor equals the height difference of the two child
subtrees and lies in the AVL band. -/
def checkInv (m : Mem) (fuel : Nat) (rootv : Option Nat) : Bool :=
  (match rootv with
   | none => true
   | some rt => decide ((m.get rt).up = none)) &&
  (reachList m fuel rootv).all fun p =>
    (match (m.get p).lr0 with
     | none => true
     | some c => decide ((m.get c).up = some p)) &&
    (match (m.get p).lr1 with
     | none => true
     | some c => decide ((m.get c).up = some p)) &&
    decide ((m.get p).bf =
      (heightM m fuel ((m.get p).lr1) : Int) - (heightM m fuel ((m.get p).lr0))) &&
    decide ((m.get p).bf.natAbs ≤ 1)

/-- A three-node AVL tree: root 2 with children 1 and 3, all balanced. -/
def mem3 : Mem :=
  memOf [(2, ⟨none, some 1, some 3, 0⟩),
         (1, ⟨some 2, none, none, 0⟩),
         (3, ⟨some 2, none, none, 0⟩)]

/-- A five-node AVL tree: root 2 (bf +1) with children 1 and 4; node 4 has
children 3 and 5. -/
def mem5 : Mem :=
  memOf [(2, ⟨none, some 1, some 4, 1⟩),
         (1, ⟨some 2, none, none, 0⟩),
         (4, ⟨some 2, some 3, some 5, 0⟩),
         (3, ⟨some 4, none, none, 0⟩),
         (5, ⟨some 4, none, none, 0⟩)]

/-- A two-node AVL tree: root 2 with left child 1. -/
def mem2 : Mem :=
  memOf [(2, ⟨none, some 1, none, -1⟩),
         (1, ⟨some 2, none, none, 0⟩)]

/-- Removing node 4 (two children, deep position) from the five-node tree. -/
def run5 : Mem × Option (Option Nat) := cavlRemove 20 mem5 (some (some 2)) (some 4)

/-- Removing the root 2 (two children, successor is its immediate right child)
from the three-node tree. -/
def run3 : Mem × Option (Option Nat) := cavlRemove 20 mem3 (some (some 2)) (some 2)

/-- C10: cavlRemove called with a NULL root reference or a NULL node pointer
returns without touching the memory or the root reference (src/cavl.h line
242: the body runs only when both pointers are non-NULL). -/
theorem cavlRemove_null_noop (fuel : Nat) (m : Mem) (root : Option (Option Nat)) :
    cavlRemove fuel m none (some 0) = (m, none) ∧
    cavlRemove fuel m root none = (m, root) ∧
    ∀ node : Option Nat, cavlRemove fuel m none node = (m, none) := by
  refine ⟨rfl, ?_, ?_⟩
  · cases root <;> rfl
  · intro node; cases node <;> rfl

/-- C3: on the three-node AVL tree rooted at 2, removing the root 2 (whose
in-order successor 3 is its immediate right child) diverges from the spec:
the entry tree satisfies all invariants and the successor is indeed the
immediate right child, yet the code starts the shrink retrace at
`(re->up, 1) = (node, 1)` — the node being removed — instead of `(s, 1)`,
and the completed removal even reinstalls the removed node 2 as the root. -/
theorem cavlRemove_retrace_start_bug :
    checkInv mem3 10 (some 2) = true ∧
    cavlFindExtremum mem3 10 ((mem3.get 2).lr1) false = some 3 ∧
    (mem3.get 3).up = some 2 ∧
    (removeTopology 20 mem3 (some 2) 2).2.2.1 = some 2 ∧
    (removeTopology 20 mem3 (some 2) 2).2.2.2 = true ∧
    run3.2 = some (some 2) := by
  refine ⟨by decide, by decide, by decide, by decide, by decide, by decide⟩

/-- C1: removing node 4 (which has the two children 3 and 5) from the
five-node AVL tree breaks the balance-factor invariant: the entry tree
satisfies every invariant, but in the resulting tree the node 5 (spliced into
the place of 4) keeps balance factor 0 although its subtree heights are
left 1 and right 0, so `bf` is no longer `height(child[1]) - height(child[0])`
after this public operation. -/
theorem cavlRemove_bf_violation :
    checkInv mem5 20 (some 2) = true ∧
    run5.2 = some (some 2) ∧
    (run5.1.get 2).lr1 = some 5 ∧
    (run5.1.get 5).bf = 0 ∧
    ((run5.1.get 5).bf ≠
      (heightM run5.1 10 ((run5.1.get 5).lr1) : Int) -
        (heightM run5.1 10 ((run5.1.get 5).lr0))) ∧
    checkInv run5.1 20 (some 2) = false := by
  refine ⟨by decide, by decide, by decide, by decide, by decide, by decide⟩

/-- C2: the same removal breaks ancestry consistency: in the resulting tree
node 3 is the left child of node 5 (which replaced the removed node 4), but
the parent link of 3 still points at the removed node 4 — the code never
fixes the parent back-links of the children adopted by the spliced-in
successor. -/
theorem cavlRemove_ancestry_violation :
    checkInv mem5 20 (some 2) = true ∧
    run5.2 = some (some 2) ∧
    (run5.1.get 2).lr1 = some 5 ∧
    (run5.1.get 5).lr0 = some 3 ∧
    (run5.1.get 3).up = some 4 ∧
    (run5.1.get 3).up ≠ some 5 := by
  refine ⟨by decide, by decide, by decide, by decide, by decide, by decide⟩

theorem Mem.get_of_eq {m : Mem} {p : Nat} {rec : Node} (h : m p = some rec) :
    m.get p = rec := by
  simp [Mem.get, h]

theorem Mem.set_ne {m : Mem} {p q : Nat} {n : Node} (h : q ≠ p) :
    (m.set p n) q = m q := by
  simp [Mem.set, h]

theorem Mem.get_set_self (m : Mem) (p : Nat) (n : Node) : (m.set p n).get p = n := by
  simp [Mem.get, Mem.set]

theorem Mem.get_set_ne {m : Mem} {p q : Nat} {n : Node} (h : q ≠ p) :
    (m.set p n).get q = m.get q := by
  simp [Mem.get, Mem.set_ne h]

theorem Mem.setLr_ne {m : Mem} {p q : Nat} {s : Bool} {v : Option Nat} (h : q ≠ p) :
    (m.setLr p s v) q = m q := Mem.set_ne h

theorem Mem.setUp_ne {m : Mem} {p q : Nat} {v : Option Nat} (h : q ≠ p) :
    (m.setUp p v) q = m q := Mem.set_ne h

theorem Mem.setBf_ne {m : Mem} {p q : Nat} {v : Int} (h : q ≠ p) :
    (m.setBf p v) q = m q := Mem.set_ne h

theorem Mem.get_setLr_ne {m : Mem} {p q : Nat} {s : Bool} {v : Option Nat} (h : q ≠ p) :
    (m.setLr p s v).get q = m.get q := Mem.get_set_ne h

theorem Mem.get_setUp_ne {m : Mem} {p q : Nat} {v : Option Nat} (h : q ≠ p) :
    (m.setUp p v).get q = m.get q := Mem.get_set_ne h

theorem Mem.get_setBf_ne {m : Mem} {p q : Nat} {v : Int} (h : q ≠ p) :
    (m.setBf p v).get q = m.get q := Mem.get_set_ne h

theorem Mem.get_setUp_self (m : Mem) (p : Nat) (v : Option Nat) :
    (m.setUp p v).get p = { m.get p with up := v } := Mem.get_set_self ..

theorem Mem.get_setBf_self (m : Mem) (p : Nat) (v : Int) :
    (m.setBf p v).get p = { m.get p with bf := v } := Mem.get_set_self ..

theorem Mem.get_setLr_self (m : Mem) (p : Nat) (s : Bool) (v : Option Nat) :
    (m.setLr p s v).get p =
      (if s then { m.get p with lr1 := v } else { m.get p with lr0 := v }) :=
  Mem.get_set_self ..

theorem bf_get_setLr (m : Mem) (p : Nat) (s : Bool) (v : Option Nat) (q : Nat) :
    ((m.setLr p s v).get q).bf = (m.get q).bf := by
  by_cases h : q = p
  · subst h; rw [Mem.get_setLr_self]; cases s <;> simp
  · rw [Mem.get_setLr_ne h]

theorem bf_get_setUp (m : Mem) (p : Nat) (v : Option Nat) (q : Nat) :
    ((m.setUp p v).get q).bf = (m.get q).bf := by
  by_cases h : q = p
  · subst h; rw [Mem.get_setUp_self]
  · rw [Mem.get_setUp_ne h]

theorem bf_get_setBf_self (m : Mem) (p : Nat) (v : Int) :
    ((m.setBf p v).get p).bf = v := by
  rw [Mem.get_setBf_self]

theorem bf_get_setBf_ne {m : Mem} {p q : Nat} {v : Int} (h : q ≠ p) :
    ((m.setBf p v).get q).bf = (m.get q).bf := by
  rw [Mem.get_setBf_ne h]

/-- Rotation does not modify any balance factor: the body of _cavlRotate only
rewrites `lr` and `up` fields. -/
theorem rotate_bf (m : Mem) (x : Nat) (r : Bool) (q : Nat) :
    (((cavlRotate m x r).1).get q).bf = (m.get q).bf := by
  unfold cavlRotate
  dsimp only
  split <;> split <;> simp [bf_get_setLr, bf_get_setUp]

/-- C5: _cavlAdjustBalance repaints balance factors exactly as the spec says.
With `nb = x->bf plus or minus 1`, `r = (nb < 0)` and `sign = +1` for a right
rotation (`r`) else `-1`: if `nb` stays in the band it is written to `x->bf`
and `x` is returned unrotated; in the single-rotation case (`z->bf * sign ≤ 0`,
`z` the heavy child) the result has `x->bf = -sign, z->bf = +sign` when
`z->bf` was 0 and `x->bf = z->bf = 0` otherwise; in the double-rotation case
(`z->bf * sign > 0`, `y = z->lr[r]`), with `k = y->bf * sign`: for `k < 0`
`x->bf = +sign, y->bf = 0, z->bf = 0`; for `k > 0` `x->bf = 0, y->bf = 0,
z->bf = -sign`; for `k = 0` `x->bf = 0, z->bf = 0` and `y->bf` remains 0. -/
theorem cavlAdjustBalance_repaint (m : Mem) (x z y : Nat) (inc : Bool)
    (nb sign : Int) (r : Bool)
    (hnb : nb = (m.get x).bf + (if inc then 1 else -1))
    (hr : r = decide (nb < 0))
    (hsign : sign = if r then 1 else -1) :
    ((-1 ≤ nb ∧ nb ≤ 1) →
       cavlAdjustBalance m x inc = (m.setBf x nb, x)) ∧
    ((nb < -1 ∨ nb > 1) → (m.get x).lr (!r) = some z → z ≠ x →
      (((m.get z).bf * sign ≤ 0 →
         (((m.get z).bf = 0 →
            ((cavlAdjustBalance m x inc).1.get x).bf = -sign ∧
            ((cavlAdjustBalance m x inc).1.get z).bf = sign) ∧
          ((m.get z).bf ≠ 0 →
            ((cavlAdjustBalance m x inc).1.get x).bf = 0 ∧
            ((cavlAdjustBalance m x inc).1.get z).bf = 0))) ∧
       ((m.get z).bf * sign > 0 → (m.get z).lr r = some y → y ≠ x → y ≠ z →
         (((m.get y).bf * sign < 0 →
            ((cavlAdjustBalance m x inc).1.get x).bf = sign ∧
            ((cavlAdjustBalance m x inc).1.get y).bf = 0 ∧
            ((cavlAdjustBalance m x inc).1.get z).bf = 0) ∧
          ((m.get y).bf * sign > 0 →
            ((cavlAdjustBalance m x inc).1.get x).bf = 0 ∧
            ((cavlAdjustBalance m x inc).1.get y).bf = 0 ∧
            ((cavlAdjustBalance m x inc).1.get z).bf = -sign) ∧
          ((m.get y).bf * sign = 0 →
            ((cavlAdjustBalance m x inc).1.get x).bf = 0 ∧
            ((cavlAdjustBalance m x inc).1.get y).bf = 0 ∧
            ((cavlAdjustBalance m x inc).1.get z).bf = 0))))) := by
  have hs01 : sign = 1 ∨ sign = -1 := by
    rw [hsign]; cases r <;> simp
  constructor
  · intro hin
    simp only [cavlAdjustBalance]
    rw [← hnb, if_neg (by omega)]
  · intro hout hz hzx
    have hxz : x ≠ z := Ne.symm hzx
    constructor
    · intro hsingle
      simp only [cavlAdjustBalance]
      rw [← hnb, if_pos hout, ← hr, ← hsign, hz]
      simp only [Option.getD_some]
      rw [if_pos hsingle, rotate_bf]
      by_cases hzbf : (m.get z).bf = 0
      · rw [if_pos hzbf]
        refine ⟨fun _ => ⟨?_, ?_⟩, fun h => absurd hzbf h⟩
        · rw [bf_get_setBf_ne hxz, bf_get_setBf_self]
        · rw [bf_get_setBf_self]
      · rw [if_neg hzbf]
        refine ⟨fun h => absurd h hzbf, fun _ => ⟨?_, ?_⟩⟩
        · rw [bf_get_setBf_ne hxz, bf_get_setBf_self]
        · rw [bf_get_setBf_self]
    · intro hdouble hy hyx hyz
      have hxy : x ≠ y := Ne.symm hyx
      have hzy : z ≠ y := Ne.symm hyz
      simp only [cavlAdjustBalance]
      rw [← hnb, if_pos hout, ← hr, ← hsign, hz]
      simp only [Option.getD_some]
      rw [if_neg (by omega), hy]
      simp only [Option.getD_some]
      rw [rotate_bf, rotate_bf]
      refine ⟨fun hk => ?_, fun hk => ?_, fun hk => ?_⟩
      · rw [if_pos hk]
        refine ⟨?_, ?_, ?_⟩
        · rw [bf_get_setBf_ne hxz, bf_get_setBf_ne hxy, bf_get_setBf_self]
        · rw [bf_get_setBf_ne hyz, bf_get_setBf_self]
        · rw [bf_get_setBf_self]
      · rw [if_neg (by omega), if_pos hk]
        refine ⟨?_, ?_, ?_⟩
        · rw [bf_get_setBf_ne hxz, bf_get_setBf_ne hxy, bf_get_setBf_self]
        · rw [bf_get_setBf_ne hyz, bf_get_setBf_self]
        · rw [bf_get_setBf_self]
      · have hy0 : (m.get y).bf = 0 := by rcases hs01 with h | h <;> rw [h] at hk <;> omega
        rw [if_neg (by omega), if_neg (by omega)]
        refine ⟨?_, ?_, ?_⟩
        · rw [bf_get_setBf_ne hxz, bf_get_setBf_self]
        · rw [bf_get_setBf_ne hyz, bf_get_setBf_ne hyx, rotate_bf, rotate_bf]
          exact hy0
        · rw [bf_get_setBf_self]

/-- A left-heavy three-node chain that needs a double rotation: node 1 is the
root (bf -1), its left child 2 is right-heavy (bf +1) with right child 3. -/
def memDouble : Mem :=
  memOf [(1, ⟨none, some 2, none, -1⟩),
         (2, ⟨some 1, none, some 3, 1⟩),
         (3, ⟨some 2, none, none, -1⟩)]

/-- Witness for the balance-adjustment repaint theorem: on the concrete
three-node chain a decrement pushes node 1 to bf -2 and triggers the
double-rotation case with `k < 0`, giving `x->bf = +1, y->bf = 0, z->bf = 0`. -/
theorem cavlAdjustBalance_repaint_witness :
    ((cavlAdjustBalance memDouble 1 false).1.get 1).bf = 1 ∧
    ((cavlAdjustBalance memDouble 1 false).1.get 3).bf = 0 ∧
    ((cavlAdjustBalance memDouble 1 false).1.get 2).bf = 0 := by
  have h := cavlAdjustBalance_repaint memDouble 1 2 3 false (-2) 1 true
    (by decide) (by decide) (by decide)
  have h2 := (h.2 (by decide) (by decide) (by decide)).2
    (by decide) (by decide) (by decide) (by decide)
  exact h2.1 (by decide)

/-- C8: every error path of cavlSearch returns NULL and leaves the memory and
the root reference untouched: a NULL predicate short-circuits, and when the
walk ends at an empty slot (no node matched) with a NULL factory or a factory
that returned NULL, nothing is written. -/
theorem cavlSearch_error_paths (fuel : Nat) (m : Mem) (rootv : Option Nat)
    (factory : Option (Option Nat)) (pr : Nat → Int) (upv : Option Nat) (n : Slot) :
    (∀ fact2 : Option (Option Nat),
      cavlSearch fuel m (some rootv) none fact2 = ⟨m, rootv, none, false⟩) ∧
    (searchLoop m rootv pr fuel rootv .root = .empty upv n →
      (factory = none ∨ factory = some none) →
      (cavlSearch fuel m (some rootv) (some pr) factory).out = none ∧
      (cavlSearch fuel m (some rootv) (some pr) factory).m = m ∧
      (cavlSearch fuel m (some rootv) (some pr) factory).rootv = rootv) := by
  constructor
  · intro fact2; rfl
  · intro hloop hfact
    simp only [cavlSearch]
    rw [hloop]
    rcases hfact with h | h <;> subst h <;> exact ⟨rfl, rfl, rfl⟩

/-- A predicate that matches nothing and always directs the walk right. -/
def predRight : Nat → Int := fun _ => 1

/-- Witness for the error-path theorem: searching the three-node tree with a
never-matching predicate and no factory returns NULL and leaves everything
unchanged; the walk provably ends at the empty right slot of node 3. -/
theorem cavlSearch_error_paths_witness :
    (cavlSearch 10 mem3 (some (some 2)) none none = ⟨mem3, some 2, none, false⟩) ∧
    (cavlSearch 10 mem3 (some (some 2)) (some predRight) none).out = none ∧
    (cavlSearch 10 mem3 (some (some 2)) (some predRight) none).m = mem3 ∧
    (cavlSearch 10 mem3 (some (some 2)) (some predRight) none).rootv = some 2 := by
  have h := cavlSearch_error_paths 10 mem3 (some 2) none predRight (some 3) (.child 3 true)
  exact ⟨h.1 none, h.2 (by decide) (Or.inl rfl)⟩

/-- Abstract shape of a pointer tree: each node is labelled with its address. -/
inductive STree where
  | leaf : STree
  | node (p : Nat) (l r : STree) : STree
deriving DecidableEq, Repr

/-- The addresses of a shape, root first, then left subtree, then right. -/
def STree.nodes : STree → List Nat
  | .leaf => []
  | .node p l r => p :: (l.nodes ++ r.nodes)

/-- Number of nodes of a shape. -/
def STree.size (t : STree) : Nat := t.nodes.length

/-- `Spans m up rt t` says that starting from the pointer `rt`, whose parent
is `up`, the memory `m` lays out exactly the finite tree shape `t`: each shape
node is present in `m`, its `up` field names its shape parent, and its child
fields span the child shapes. -/
inductive Spans (m : Mem) : Option Nat → Option Nat → STree → Prop where
  | leaf (up : Option Nat) : Spans m up none .leaf
  | node (up : Option Nat) (p : Nat) (l r : STree) (rec : Node)
      (hm : m p = some rec) (hup : rec.up = up)
      (hl : Spans m (some p) rec.lr0 l) (hr : Spans m (some p) rec.lr1 r) :
      Spans m up (some p) (.node p l r)

theorem spans_some_inv {m : Mem} {u : Option Nat} {p : Nat} {t : STree}
    (h : Spans m u (some p) t) :
    ∃ l r, t = STree.node p l r ∧ m p = some (m.get p) ∧ (m.get p).up = u ∧
      Spans m (some p) ((m.get p).lr0) l ∧ Spans m (some p) ((m.get p).lr1) r := by
  cases h with
  | node up p l r rec hm hup hl hr =>
    refine ⟨l, r, rfl, ?_, ?_, ?_, ?_⟩ <;> rw [Mem.get_of_eq hm] <;> assumption

theorem spans_rt_mem {m : Mem} {u : Option Nat} {p : Nat} {t : STree}
    (h : Spans m u (some p) t) : p ∈ t.nodes := by
  obtain ⟨l, r, rfl, -⟩ := spans_some_inv h
  simp [STree.nodes]

theorem spans_mem_present {m : Mem} {u rt : Option Nat} {t : STree}
    (h : Spans m u rt t) : ∀ q ∈ t.nodes, m q = some (m.get q) := by
  induction h with
  | leaf => intro q hq; simp [STree.nodes] at hq
  | node up p l r rec hm hup hl hr ihl ihr =>
    intro q hq
    simp only [STree.nodes, List.mem_cons, List.mem_append] at hq
    rcases hq with rfl | hq | hq
    · rw [Mem.get_of_eq hm]; exact hm
    · exact ihl q hq
    · exact ihr q hq

/-- Every child pointer of a node of the tree points back to it, and stays in
the tree. -/
theorem spans_child_up {m : Mem} {u rt : Option Nat} {t : STree}
    (h : Spans m u rt t) : ∀ q ∈ t.nodes, ∀ c : Nat,
      ((m.get q).lr0 = some c ∨ (m.get q).lr1 = some c) →
      (m.get c).up = some q ∧ c ∈ t.nodes := by
  induction h with
  | leaf => intro q hq; simp [STree.nodes] at hq
  | node up p l r rec hm hup hl hr ihl ihr =>
    intro q hq c hc
    simp only [STree.nodes, List.mem_cons, List.mem_append] at hq ⊢
    rcases hq with rfl | hq | hq
    · rw [Mem.get_of_eq hm] at hc
      rcases hc with hc | hc
      · rw [hc] at hl
        obtain ⟨lc, rc, -, -, hcu, -⟩ := spans_some_inv hl
        exact ⟨hcu, Or.inr (Or.inl (spans_rt_mem hl))⟩
      · rw [hc] at hr
        obtain ⟨lc, rc, -, -, hcu, -⟩ := spans_some_inv hr
        exact ⟨hcu, Or.inr (Or.inr (spans_rt_mem hr))⟩
    · obtain ⟨h1, h2⟩ := ihl q hq c hc
      exact ⟨h1, Or.inr (Or.inl h2)⟩
    · obtain ⟨h1, h2⟩ := ihr q hq c hc
      exact ⟨h1, Or.inr (Or.inr h2)⟩

/-- Every parent pointer of a tree node either identifies its parent inside
the tree (which then holds it in a child slot) or escapes through the root. -/
theorem spans_up_src {m : Mem} {u rt : Option Nat} {t : STree}
    (h : Spans m u rt t) : ∀ q ∈ t.nodes, ∀ v : Nat, (m.get q).up = some v →
      (v ∈ t.nodes ∧ ((m.get v).lr0 = some q ∨ (m.get v).lr1 = some q)) ∨
      (u = some v ∧ rt = some q) := by
  induction h with
  | leaf => intro q hq; simp [STree.nodes] at hq
  | node up p l r rec hm hup hl hr ihl ihr =>
    intro q hq v hv
    simp only [STree.nodes, List.mem_cons, List.mem_append] at hq ⊢
    rcases hq with rfl | hq | hq
    · rw [Mem.get_of_eq hm, hup] at hv
      exact Or.inr ⟨hv.symm ▸ rfl, rfl⟩
    · rcases ihl q hq v hv with ⟨hv1, hv2⟩ | ⟨hv1, hv2⟩
      · exact Or.inl ⟨Or.inr (Or.inl hv1), hv2⟩
      · obtain rfl : p = v := by injection hv1
        refine Or.inl ⟨Or.inl rfl, Or.inl ?_⟩
        rw [Mem.get_of_eq hm]
        exact hv2
    · rcases ihr q hq v hv with ⟨hv1, hv2⟩ | ⟨hv1, hv2⟩
      · exact Or.inl ⟨Or.inr (Or.inr hv1), hv2⟩
      · obtain rfl : p = v := by injection hv1
        refine Or.inl ⟨Or.inl rfl, Or.inr ?_⟩
        rw [Mem.get_of_eq hm]
        exact hv2

/-- Extract the subtree spanned below any member address. -/
theorem spans_extract {m : Mem} {u rt : Option Nat} {t : STree}
    (h : Spans m u rt t) : ∀ q ∈ t.nodes,
      ∃ uq tq, Spans m uq (some q) tq ∧ tq.nodes.Sublist t.nodes := by
  induction h with
  | leaf => intro q hq; simp [STree.nodes] at hq
  | node up p l r rec hm hup hl hr ihl ihr =>
    intro q hq
    simp only [STree.nodes, List.mem_cons, List.mem_append] at hq
    rcases hq with rfl | hq | hq
    · exact ⟨up, STree.node q l r, Spans.node up q l r rec hm hup hl hr,
        List.Sublist.refl _⟩
    · obtain ⟨uq, tq, hs, hsub⟩ := ihl q hq
      exact ⟨uq, tq, hs, hsub.trans ((l.nodes.sublist_append_left r.nodes).trans
        (List.sublist_cons_self p _))⟩
    · obtain ⟨uq, tq, hs, hsub⟩ := ihr q hq
      exact ⟨uq, tq, hs, hsub.trans ((l.nodes.sublist_append_right r.nodes).trans
        (List.sublist_cons_self p _))⟩

/-- In a duplicate-free tree no node is its own child. -/
theorem spans_no_self_slot {m : Mem} {u rt : Option Nat} {t : STree}
    (h : Spans m u rt t) (hnd : t.nodes.Nodup) : ∀ q ∈ t.nodes,
      ¬((m.get q).lr0 = some q ∨ (m.get q).lr1 = some q) := by
  intro q hq hself
  obtain ⟨uq, tq, hs, hsub⟩ := spans_extract h q hq
  have hndq : tq.nodes.Nodup := hnd.sublist hsub
  obtain ⟨l, r, rfl, -, -, hsl, hsr⟩ := spans_some_inv hs
  simp only [STree.nodes, List.nodup_cons, List.mem_append] at hndq
  rcases hself with hc | hc
  · exact hndq.1 (Or.inl (spans_rt_mem (hc ▸ hsl)))
  · exact hndq.1 (Or.inr (spans_rt_mem (hc ▸ hsr)))

/-- In a duplicate-free tree the two child slots of a node never coincide. -/
theorem spans_slots_distinct {m : Mem} {u rt : Option Nat} {t : STree}
    (h : Spans m u rt t) (hnd : t.nodes.Nodup) : ∀ q ∈ t.nodes, ∀ c : Nat,
      ¬((m.get q).lr0 = some c ∧ (m.get q).lr1 = some c) := by
  intro q hq c ⟨h0, h1⟩
  obtain ⟨uq, tq, hs, hsub⟩ := spans_extract h q hq
  have hndq : tq.nodes.Nodup := hnd.sublist hsub
  obtain ⟨l, r, rfl, -, -, hsl, hsr⟩ := spans_some_inv hs
  simp only [STree.nodes, List.nodup_cons, List.nodup_append] at hndq
  exact hndq.2.2.2 (spans_rt_mem (h0 ▸ hsl)) (spans_rt_mem (h1 ▸ hsr))

/-- A predicate is directed on a tree when, at every node it fails to match,
all matches lie on the side it steers the walk to: if it says "greater"
(positive) no match is in the left subtree, if it says "smaller" none is in
the right subtree.  This is what BST ordering gives a three-way comparator. -/
def directed (pr : Nat → Int) : STree → Bool
  | .leaf => true
  | .node p l r =>
    ((!decide (0 < pr p)) || l.nodes.all fun q => !decide (pr q = 0)) &&
    ((!decide (pr p < 0)) || r.nodes.all fun q => !decide (pr q = 0)) &&
    directed pr l && directed pr r

/-- The search walk of cavlSearch finds a matching node whenever the predicate
is directed on the spanned tree and a match exists in it. -/
theorem searchLoop_finds {m : Mem} {rootv : Option Nat} {pr : Nat → Int}
    (t : STree) : ∀ (fuel : Nat) (upT up0 : Option Nat) (slot : Slot)
      (rt : Option Nat), Spans m upT rt t → slotGet m rootv slot = rt →
      directed pr t = true → (∃ q ∈ t.nodes, pr q = 0) → t.size < fuel →
      ∃ q, searchLoop m rootv pr fuel up0 slot = .found q ∧
        q ∈ t.nodes ∧ pr q = 0 := by
  induction t with
  | leaf =>
    intro fuel upT up0 slot rt hs hslot hd hex hfuel
    obtain ⟨q, hq, -⟩ := hex
    simp [STree.nodes] at hq
  | node p l r ihl ihr =>
    intro fuel upT up0 slot rt hs hslot hd hex hfuel
    obtain ⟨rec, hm, hup, hl, hr⟩ : ∃ rec, m p = some rec ∧ rec.up = upT ∧
        Spans m (some p) rec.lr0 l ∧ Spans m (some p) rec.lr1 r := by
      cases hs with
      | node _ _ _ _ rec hm hup hl hr => exact ⟨rec, hm, hup, hl, hr⟩
    have hrt : rt = some p := by cases hs; rfl
    subst hrt
    simp only [directed, Bool.and_eq_true, Bool.or_eq_true, Bool.not_eq_true',
      List.all_eq_true, decide_eq_true_eq, decide_eq_false_iff_not] at hd
    obtain ⟨⟨⟨hdl, hdr⟩, hdirl⟩, hdirr⟩ := hd
    have hsize : (STree.node p l r).size = 1 + (l.size + r.size) := by
      simp only [STree.size, STree.nodes, List.length_cons, List.length_append]
      omega
    cases fuel with
    | zero => omega
    | succ f =>
      simp only [searchLoop, hslot]
      by_cases h0 : pr p = 0
      · refine ⟨p, ?_, by simp [STree.nodes], h0⟩
        simp [h0]
      · obtain ⟨q0, hq0m, hq0⟩ := hex
        simp only [STree.nodes, List.mem_cons, List.mem_append] at hq0m
        rw [if_neg h0]
        by_cases hpos : 0 < pr p
        · rcases hdl with h | h
          · omega
          · have hq0r : q0 ∈ r.nodes := by
              rcases hq0m with rfl | hq | hq
              · exact absurd hq0 h0
              · exact absurd hq0 (h q0 hq)
              · exact hq
            have hdec : decide (pr p > 0) = true := by simp [hpos]
            rw [hdec]
            obtain ⟨q, hqf, hqm, hqz⟩ := ihr f (some p) (some p) (.child p true)
              rec.lr1 hr (by simp [slotGet, Mem.get_of_eq hm, Node.lr]) hdirr
              ⟨q0, hq0r, hq0⟩ (by rw [hsize] at hfuel; simp only [STree.size] at *; omega)
            exact ⟨q, hqf, by simp only [STree.nodes, List.mem_cons, List.mem_append]; tauto, hqz⟩
        · have hneg : pr p < 0 := by omega
          rcases hdr with h | h
          · omega
          · have hq0l : q0 ∈ l.nodes := by
              rcases hq0m with rfl | hq | hq
              · exact absurd hq0 h0
              · exact hq
              · exact absurd hq0 (h q0 hq)
            have hdec : decide (pr p > 0) = false := by simp; omega
            rw [hdec]
            obtain ⟨q, hqf, hqm, hqz⟩ := ihl f (some p) (some p) (.child p false)
              rec.lr0 hl (by simp [slotGet, Mem.get_of_eq hm, Node.lr]) hdirl
              ⟨q0, hq0l, hq0⟩ (by rw [hsize] at hfuel; simp only [STree.size] at *; omega)
            exact ⟨q, hqf, by simp only [STree.nodes, List.mem_cons, List.mem_append]; tauto, hqz⟩

/-- C9: when the tree contains a node the predicate matches (with matches
unique, as BST ordering guarantees), cavlSearch returns that node without
invoking the factory — even when a non-NULL factory is supplied — and leaves
the memory and root reference untouched; calling it again with the same
predicate returns the same node. -/
theorem cavlSearch_match_short_circuit (fuel : Nat) (m : Mem) (rootv : Option Nat)
    (pr : Nat → Int) (t : STree) (q0 : Nat) (factory : Option (Option Nat))
    (hs : Spans m none rootv t) (hd : directed pr t = true)
    (hq0m : q0 ∈ t.nodes) (hq0 : pr q0 = 0)
    (huniq : ∀ q ∈ t.nodes, pr q = 0 → q = q0)
    (hfuel : t.size < fuel) :
    cavlSearch fuel m (some rootv) (some pr) factory = ⟨m, rootv, some q0, false⟩ ∧
    cavlSearch fuel ((cavlSearch fuel m (some rootv) (some pr) factory).m)
      (some ((cavlSearch fuel m (some rootv) (some pr) factory).rootv))
      (some pr) factory = ⟨m, rootv, some q0, false⟩ := by
  obtain ⟨q, hfound, hqm, hqz⟩ :=
    searchLoop_finds t fuel none rootv .root rootv hs rfl hd ⟨q0, hq0m, hq0⟩ hfuel
  obtain rfl : q = q0 := huniq q hqm hqz
  have h1 : cavlSearch fuel m (some rootv) (some pr) factory =
      ⟨m, rootv, some q, false⟩ := by
    simp only [cavlSearch]
    rw [hfound]
  refine ⟨h1, ?_⟩
  rw [h1]
  exact h1

/-- The shape of the three-node tree mem3. -/
def t3 : STree := .node 2 (.node 1 .leaf .leaf) (.node 3 .leaf .leaf)

/-- The three-way comparator searching mem3 for the key 3. -/
def pred3 : Nat → Int := fun q => 3 - (q : Int)

/-- Witness for the factory short-circuit theorem: searching the three-node
tree for the existing key 3 with a non-NULL factory returns node 3, calls no
factory, changes nothing, and does the same when repeated. -/
theorem cavlSearch_match_short_circuit_witness :
    cavlSearch 10 mem3 (some (some 2)) (some pred3) (some (some 99)) =
      ⟨mem3, some 2, some 3, false⟩ ∧
    cavlSearch 10 mem3 (some (some 2)) (some pred3) (some (some 99)) =
      ⟨mem3, some 2, some 3, false⟩ := by
  have hs : Spans mem3 none (some 2) t3 :=
    Spans.node none 2 (.node 1 .leaf .leaf) (.node 3 .leaf .leaf)
      ⟨none, some 1, some 3, 0⟩ rfl rfl
      (Spans.node (some 2) 1 .leaf .leaf ⟨some 2, none, none, 0⟩ rfl rfl
        (Spans.leaf _) (Spans.leaf _))
      (Spans.node (some 2) 3 .leaf .leaf ⟨some 2, none, none, 0⟩ rfl rfl
        (Spans.leaf _) (Spans.leaf _))
  have h := cavlSearch_match_short_circuit 10 mem3 (some 2) pred3 t3 3
    (some (some 99)) hs (by decide) (by decide) (by decide) (by decide) (by decide)
  exact ⟨h.1, h.1⟩

theorem Mem.present {m : Mem} {q : Nat} {n : Node} (h : m q = some n) :
    m q = some (m.get q) := by
  rw [Mem.get, h]; rfl

theorem Mem.set_self_raw (m : Mem) (p : Nat) (n : Node) : (m.set p n) p = some n := by
  simp [Mem.set]

theorem up_get_setLr (m : Mem) (p : Nat) (s : Bool) (v : Option Nat) (q : Nat) :
    ((m.setLr p s v).get q).up = (m.get q).up := by
  by_cases h : q = p
  · subst h; rw [Mem.get_setLr_self]; cases s <;> simp
  · rw [Mem.get_setLr_ne h]

theorem lr_get_setUp (m : Mem) (p : Nat) (u : Option Nat) (s : Bool) (q : Nat) :
    ((m.setUp p u).get q).lr s = (m.get q).lr s := by
  by_cases h : q = p
  · subst h; rw [Mem.get_setUp_self]; cases s <;> simp [Node.lr]
  · rw [Mem.get_setUp_ne h]

theorem lr_get_setBf (m : Mem) (p : Nat) (v : Int) (s : Bool) (q : Nat) :
    ((m.setBf p v).get q).lr s = (m.get q).lr s := by
  by_cases h : q = p
  · subst h; rw [Mem.get_setBf_self]; cases s <;> simp [Node.lr]
  · rw [Mem.get_setBf_ne h]

theorem up_get_setBf (m : Mem) (p : Nat) (v : Int) (q : Nat) :
    ((m.setBf p v).get q).up = (m.get q).up := by
  by_cases h : q = p
  · subst h; rw [Mem.get_setBf_self]
  · rw [Mem.get_setBf_ne h]

theorem up_get_setUp_self (m : Mem) (p : Nat) (u : Option Nat) :
    ((m.setUp p u).get p).up = u := by
  rw [Mem.get_setUp_self]

theorem lr_get_setLr_self (m : Mem) (p : Nat) (s s2 : Bool) (v : Option Nat) :
    ((m.setLr p s v).get p).lr s2 = if s2 = s then v else (m.get p).lr s2 := by
  rw [Mem.get_setLr_self]; cases s <;> cases s2 <;> simp [Node.lr]

/-- A spanned shape survives any memory change that leaves its nodes alone. -/
theorem spans_frame {m m2 : Mem} {u rt : Option Nat} {t : STree}
    (h : Spans m u rt t) (hf : ∀ q ∈ t.nodes, m2 q = m q) : Spans m2 u rt t := by
  induction h with
  | leaf => exact Spans.leaf _
  | node up p l r rec hm hup hl hr ihl ihr =>
    refine Spans.node up p l r rec ?_ hup ?_ ?_
    · rw [hf p (by simp [STree.nodes])]; exact hm
    · exact ihl fun q hq => hf q (by simp [STree.nodes, List.mem_append]; tauto)
    · exact ihr fun q hq => hf q (by simp [STree.nodes, List.mem_append]; tauto)

/-- A spanned shape survives re-pointing the parent link (and balance factor)
of its root, as long as the children links of the root and the other nodes
are untouched. -/
theorem spans_update {m m2 : Mem} {u0 rt : Option Nat} {t : STree} (u1 : Option Nat)
    (h : Spans m u0 rt t) (hnd : t.nodes.Nodup)
    (hroot : ∀ q, rt = some q → ∃ b, m2 q =
      some ⟨u1, (m.get q).lr0, (m.get q).lr1, b⟩)
    (hrest : ∀ q ∈ t.nodes, rt ≠ some q → m2 q = m q) : Spans m2 u1 rt t := by
  cases h with
  | leaf => exact Spans.leaf _
  | node up p l r rec hm hup hl hr =>
    obtain ⟨b, hb⟩ := hroot p rfl
    rw [Mem.get_of_eq hm] at hb
    simp only [STree.nodes, List.nodup_cons, List.mem_append] at hnd
    refine Spans.node u1 p l r ⟨u1, rec.lr0, rec.lr1, b⟩ hb rfl ?_ ?_
    · exact spans_frame hl fun q hq => hrest q
        (by simp [STree.nodes, List.mem_append]; tauto)
        (by intro hc; injection hc with hc; exact hnd.1 (hc ▸ Or.inl hq))
    · exact spans_frame hr fun q hq => hrest q
        (by simp [STree.nodes, List.mem_append]; tauto)
        (by intro hc; injection hc with hc; exact hnd.1 (hc ▸ Or.inr hq))

theorem Mem.setLr_self_raw (m : Mem) (p : Nat) (s : Bool) (v : Option Nat) :
    (m.setLr p s v) p =
      some (if s then { m.get p with lr1 := v } else { m.get p with lr0 := v }) :=
  Mem.set_self_raw ..

theorem Mem.setUp_self_raw (m : Mem) (p : Nat) (u : Option Nat) :
    (m.setUp p u) p = some { m.get p with up := u } :=
  Mem.set_self_raw ..

theorem cavlRotate_eq_nn {m : Mem} {x z : Nat} {r : Bool}
    (hz : (m.get x).lr (!r) = some z) (hu : (m.get x).up = none)
    (hg : (m.get z).lr r = none) :
    cavlRotate m x r =
      ((((m.setUp z none).setUp x (some z)).setLr x (!r) none).setLr z r (some x),
       z) := by
  simp only [cavlRotate, hz, Option.getD_some, hu]
  rw [lr_get_setUp, lr_get_setUp, hg, lr_get_setLr_self]
  simp

theorem cavlRotate_eq_ns {m : Mem} {x z g : Nat} {r : Bool}
    (hz : (m.get x).lr (!r) = some z) (hu : (m.get x).up = none)
    (hg : (m.get z).lr r = some g) :
    cavlRotate m x r =
      (((((m.setUp z none).setUp x (some z)).setLr x (!r) (some g)).setUp g
          (some x)).setLr z r (some x),
       z) := by
  simp only [cavlRotate, hz, Option.getD_some, hu]
  rw [lr_get_setUp, lr_get_setUp, hg, lr_get_setLr_self]
  simp

theorem cavlRotate_eq_sn {m : Mem} {x z w : Nat} {r : Bool}
    (hz : (m.get x).lr (!r) = some z) (hu : (m.get x).up = some w)
    (hzw : z ≠ w) (hg : (m.get z).lr r = none) :
    cavlRotate m x r =
      (((((m.setLr w (decide ((m.get w).lr true = some x)) (some z)).setUp z
          (some w)).setUp x (some z)).setLr x (!r) none).setLr z r (some x),
       z) := by
  simp only [cavlRotate, hz, Option.getD_some, hu, up_get_setLr]
  rw [lr_get_setUp, lr_get_setUp, Mem.get_setLr_ne hzw, hg, lr_get_setLr_self]
  simp

theorem cavlRotate_eq_ss {m : Mem} {x z w g : Nat} {r : Bool}
    (hz : (m.get x).lr (!r) = some z) (hu : (m.get x).up = some w)
    (hzw : z ≠ w) (hg : (m.get z).lr r = some g) :
    cavlRotate m x r =
      ((((((m.setLr w (decide ((m.get w).lr true = some x)) (some z)).setUp z
          (some w)).setUp x (some z)).setLr x (!r) (some g)).setUp g
          (some x)).setLr z r (some x),
       z) := by
  simp only [cavlRotate, hz, Option.getD_some, hu, up_get_setLr]
  rw [lr_get_setUp, lr_get_setUp, Mem.get_setLr_ne hzw, hg, lr_get_setLr_self]
  simp

/-- A memory spans at most one shape from a given pointer. -/
theorem spans_unique {m : Mem} {u1 u2 rt : Option Nat} {t1 t2 : STree}
    (h1 : Spans m u1 rt t1) (h2 : Spans m u2 rt t2) : t1 = t2 := by
  induction h1 generalizing u2 t2 with
  | leaf => cases h2; rfl
  | node up p l r rec hm hup hl hr ihl ihr =>
    obtain ⟨l2, r2, rfl, -, -, hsl2, hsr2⟩ := spans_some_inv h2
    rw [Mem.get_of_eq hm] at hsl2 hsr2
    rw [ihl hsl2, ihr hsr2]

set_option maxHeartbeats 2000000 in
/-- C6: the rotation primitive contract.  For a well-formed subtree rooted at
`x` whose child opposite to the rotation direction `r` is `z`, `_cavlRotate`
returns `z` as the new subtree root and restitches exactly the affected
links: `z` takes over `x`'s parent and its slot under the former parent, `x`
becomes `z->lr[r]`, `z`'s former inner grandchild becomes `x->lr[!r]` with its
parent pointer updated, every untouched link keeps its value (frame clause),
the balance factors of `x` and `z` are not modified, and the rotated subtree
spans exactly the same set of nodes. -/
theorem cavlRotate_contract (m : Mem) (x z : Nat) (r : Bool) (u : Option Nat)
    (t : STree) (hs : Spans m u (some x) t) (hnd : t.nodes.Nodup)
    (hz : (m.get x).lr (!r) = some z)
    (huout : ∀ w, u = some w → w ∉ t.nodes)
    (huch : ∀ w, u = some w →
      (m.get w).lr1 = some x ∨ ((m.get w).lr0 = some x ∧ (m.get w).lr1 ≠ some x)) :
    (cavlRotate m x r).2 = z ∧
    ((cavlRotate m x r).1.get z).up = u ∧
    ((cavlRotate m x r).1.get z).lr r = some x ∧
    ((cavlRotate m x r).1.get z).lr (!r) = (m.get z).lr (!r) ∧
    ((cavlRotate m x r).1.get x).up = some z ∧
    ((cavlRotate m x r).1.get x).lr (!r) = (m.get z).lr r ∧
    ((cavlRotate m x r).1.get x).lr r = (m.get x).lr r ∧
    (∀ g, (m.get z).lr r = some g → ((cavlRotate m x r).1.get g).up = some x) ∧
    ((cavlRotate m x r).1.get x).bf = (m.get x).bf ∧
    ((cavlRotate m x r).1.get z).bf = (m.get z).bf ∧
    (∀ w, u = some w →
      ((m.get w).lr1 = some x → ((cavlRotate m x r).1.get w).lr1 = some z ∧
        ((cavlRotate m x r).1.get w).lr0 = (m.get w).lr0) ∧
      ((m.get w).lr1 ≠ some x → ((cavlRotate m x r).1.get w).lr0 = some z ∧
        ((cavlRotate m x r).1.get w).lr1 = (m.get w).lr1)) ∧
    (∀ q, q ≠ x → q ≠ z → (m.get z).lr r ≠ some q → u ≠ some q →
      (cavlRotate m x r).1 q = m q) ∧
    (∃ t2, Spans (cavlRotate m x r).1 u (some z) t2 ∧
      ∀ q, q ∈ t2.nodes ↔ q ∈ t.nodes) := by
  obtain ⟨tA, tB, ht, hpres, hupx, hsA, hsB⟩ := spans_some_inv hs
  subst ht
  cases r
  case false =>
    have hz0 : (m.get x).lr1 = some z := by simpa using hz
    rw [hz0] at hsB
    obtain ⟨tzl, tzr, htB, hpz, hupz, hszl, hszr⟩ := spans_some_inv hsB
    subst htB
    simp only [STree.nodes] at hnd
    have hcons := List.nodup_cons.mp hnd
    have hx1 : x ∉ tA.nodes ++ (z :: (tzl.nodes ++ tzr.nodes)) := hcons.1
    have hnd1 := hcons.2
    have hndZ : (z :: (tzl.nodes ++ tzr.nodes)).Nodup := hnd1.of_append_right
    have hdisjAZ := List.disjoint_of_nodup_append hnd1
    have hconsZ := List.nodup_cons.mp hndZ
    have hz1 : z ∉ tzl.nodes ++ tzr.nodes := hconsZ.1
    have hndzz := hconsZ.2
    have hnd_tzl : tzl.nodes.Nodup := hndzz.of_append_left
    have hnd_tzr : tzr.nodes.Nodup := hndzz.of_append_right
    have hdisj12 := List.disjoint_of_nodup_append hndzz
    have hzx : z ≠ x := by
      intro h
      exact hx1 (List.mem_append_right _ (h ▸ List.mem_cons_self _ _))
    have hxz : x ≠ z := hzx.symm
    have hxntzl : x ∉ tzl.nodes := fun h =>
      hx1 (List.mem_append_right _ (List.mem_cons_of_mem _ (List.mem_append_left _ h)))
    have hxntzr : x ∉ tzr.nodes := fun h =>
      hx1 (List.mem_append_right _ (List.mem_cons_of_mem _ (List.mem_append_right _ h)))
    have hxnA : x ∉ tA.nodes := fun h => hx1 (List.mem_append_left _ h)
    have hzntzl : z ∉ tzl.nodes := fun h => hz1 (List.mem_append_left _ h)
    have hzntzr : z ∉ tzr.nodes := fun h => hz1 (List.mem_append_right _ h)
    have hznA : z ∉ tA.nodes := fun h => hdisjAZ h (List.mem_cons_self _ _)
    rcases u with _ | w
    · rcases hgv : (m.get z).lr false with _ | g
      · have hg1 : (m.get z).lr0 = none := by simpa [Node.lr] using hgv
        rw [hg1] at hszl
        cases hszl
        have hdef := cavlRotate_eq_nn hz hupx hgv
        rw [hdef]
        dsimp only
        simp only [Bool.not_false]
        refine ⟨trivial, ?_, ?_, ?_, ?_, ?_, ?_, ?_, ?_, ?_, ?_, ?_, ?_⟩
        · rw [up_get_setLr, Mem.get_setLr_ne hzx, Mem.get_setUp_ne hzx,
            up_get_setUp_self]
        · rw [lr_get_setLr_self]
          simp
        · rw [lr_get_setLr_self, if_neg (by simp), Mem.get_setLr_ne hzx,
            lr_get_setUp, lr_get_setUp]
        · rw [up_get_setLr, up_get_setLr, up_get_setUp_self]
        · rw [Mem.get_setLr_ne hxz, lr_get_setLr_self, if_pos rfl]
        · rw [Mem.get_setLr_ne hxz, lr_get_setLr_self, if_neg (by simp),
            lr_get_setUp, lr_get_setUp]
        · intro g2 hg2
          exact absurd hg2 (by simp)
        · simp only [bf_get_setLr, bf_get_setUp]
        · simp only [bf_get_setLr, bf_get_setUp]
        · intro w2 hw2
          exact absurd hw2 (by simp)
        · intro q hqx hqz hqg hqw
          rw [Mem.setLr_ne hqz, Mem.setLr_ne hqx, Mem.setUp_ne hqx,
            Mem.setUp_ne hqz]
        · have hMz : ((((m.setUp z none).setUp x (some z)).setLr x true
              none).setLr z false (some x)) z =
              some ⟨none, some x, (m.get z).lr1, (m.get z).bf⟩ := by
            rw [Mem.setLr_self_raw, Mem.get_setLr_ne hzx, Mem.get_setUp_ne hzx,
              Mem.get_setUp_self]
            simp
          have hMx : ((((m.setUp z none).setUp x (some z)).setLr x true
              none).setLr z false (some x)) x =
              some ⟨some z, (m.get x).lr0, none, (m.get x).bf⟩ := by
            rw [Mem.setLr_ne hxz, Mem.setLr_self_raw, Mem.get_setUp_self,
              Mem.get_setUp_ne hxz]
            simp
          have hframe : ∀ q, q ≠ z → q ≠ x →
              ((((m.setUp z none).setUp x (some z)).setLr x true
              none).setLr z false (some x)) q = m q := by
            intro q h1 h3
            rw [Mem.setLr_ne h1, Mem.setLr_ne h3, Mem.setUp_ne h3, Mem.setUp_ne h1]
          refine ⟨STree.node z (STree.node x tA STree.leaf) tzr,
            Spans.node none z (STree.node x tA STree.leaf) tzr
              ⟨none, some x, (m.get z).lr1, (m.get z).bf⟩ hMz rfl ?_ ?_, ?_⟩
          · refine Spans.node (some z) x tA STree.leaf
              ⟨some z, (m.get x).lr0, none, (m.get x).bf⟩ hMx rfl ?_
              (Spans.leaf _)
            · exact spans_frame hsA fun q hq => hframe q
                (fun h => hznA (h ▸ hq)) (fun h => hxnA (h ▸ hq))
          · exact spans_frame hszr fun q hq => hframe q
              (fun h => hzntzr (h ▸ hq)) (fun h => hxntzr (h ▸ hq))
          · intro q
            simp only [STree.nodes, List.mem_cons, List.mem_append]
            tauto
      · have hg1 : (m.get z).lr0 = some g := by simpa [Node.lr] using hgv
        rw [hg1] at hszl
        have hgmem : g ∈ tzl.nodes := spans_rt_mem hszl
        have hgz : g ≠ z := fun h => hzntzl (h ▸ hgmem)
        have hzg : z ≠ g := hgz.symm
        have hgx : g ≠ x := fun h => hxntzl (h ▸ hgmem)
        have hxg : x ≠ g := hgx.symm
        have hdef := cavlRotate_eq_ns hz hupx hgv
        rw [hdef]
        dsimp only
        simp only [Bool.not_false]
        refine ⟨trivial, ?_, ?_, ?_, ?_, ?_, ?_, ?_, ?_, ?_, ?_, ?_, ?_⟩
        · rw [up_get_setLr, Mem.get_setUp_ne hzg, Mem.get_setLr_ne hzx,
            Mem.get_setUp_ne hzx, up_get_setUp_self]
        · rw [lr_get_setLr_self]
          simp
        · rw [lr_get_setLr_self, if_neg (by simp), Mem.get_setUp_ne hzg,
            Mem.get_setLr_ne hzx, lr_get_setUp, lr_get_setUp]
        · rw [up_get_setLr, Mem.get_setUp_ne hxg, up_get_setLr, up_get_setUp_self]
        · rw [Mem.get_setLr_ne hxz, Mem.get_setUp_ne hxg, lr_get_setLr_self,
            if_pos rfl]
        · rw [Mem.get_setLr_ne hxz, Mem.get_setUp_ne hxg, lr_get_setLr_self,
            if_neg (by simp), lr_get_setUp, lr_get_setUp]
        · intro g2 hg2
          injection hg2 with hg2
          subst hg2
          rw [Mem.get_setLr_ne hgz, up_get_setUp_self]
        · simp only [bf_get_setLr, bf_get_setUp]
        · simp only [bf_get_setLr, bf_get_setUp]
        · intro w2 hw2
          exact absurd hw2 (by simp)
        · intro q hqx hqz hqg hqw
          have hqg2 : q ≠ g := fun h => hqg (by rw [h])
          rw [Mem.setLr_ne hqz, Mem.setUp_ne hqg2, Mem.setLr_ne hqx,
            Mem.setUp_ne hqx, Mem.setUp_ne hqz]
        · have hMz : (((((m.setUp z none).setUp x (some z)).setLr x true
              (some g)).setUp g (some x)).setLr z false (some x)) z =
              some ⟨none, some x, (m.get z).lr1, (m.get z).bf⟩ := by
            rw [Mem.setLr_self_raw, Mem.get_setUp_ne hzg, Mem.get_setLr_ne hzx,
              Mem.get_setUp_ne hzx, Mem.get_setUp_self]
            simp
          have hMx : (((((m.setUp z none).setUp x (some z)).setLr x true
              (some g)).setUp g (some x)).setLr z false (some x)) x =
              some ⟨some z, (m.get x).lr0, some g, (m.get x).bf⟩ := by
            rw [Mem.setLr_ne hxz, Mem.setUp_ne hxg, Mem.setLr_self_raw,
              Mem.get_setUp_self, Mem.get_setUp_ne hxz]
            simp
          have hMg : (((((m.setUp z none).setUp x (some z)).setLr x true
              (some g)).setUp g (some x)).setLr z false (some x)) g =
              some ⟨some x, (m.get g).lr0, (m.get g).lr1, (m.get g).bf⟩ := by
            rw [Mem.setLr_ne hgz, Mem.setUp_self_raw, Mem.get_setLr_ne hgx,
              Mem.get_setUp_ne hgx, Mem.get_setUp_ne hgz]
          have hframe : ∀ q, q ≠ z → q ≠ g → q ≠ x →
              (((((m.setUp z none).setUp x (some z)).setLr x true
              (some g)).setUp g (some x)).setLr z false (some x)) q = m q := by
            intro q h1 h2 h3
            rw [Mem.setLr_ne h1, Mem.setUp_ne h2, Mem.setLr_ne h3,
              Mem.setUp_ne h3, Mem.setUp_ne h1]
          refine ⟨STree.node z (STree.node x tA tzl) tzr,
            Spans.node none z (STree.node x tA tzl) tzr
              ⟨none, some x, (m.get z).lr1, (m.get z).bf⟩ hMz rfl ?_ ?_, ?_⟩
          · refine Spans.node (some z) x tA tzl
              ⟨some z, (m.get x).lr0, some g, (m.get x).bf⟩ hMx rfl ?_ ?_
            · exact spans_frame hsA fun q hq => hframe q
                (fun h => hznA (h ▸ hq))
                (fun h => hdisjAZ (h ▸ hq) (List.mem_cons_of_mem _
                  (List.mem_append_left _ hgmem)))
                (fun h => hxnA (h ▸ hq))
            · refine spans_update (some x) hszl hnd_tzl ?_ ?_
              · intro q hq
                injection hq with hq
                subst hq
                exact ⟨(m.get g).bf, hMg⟩
              · intro q hq hne
                exact hframe q (fun h => hzntzl (h ▸ hq))
                  (fun h => hne (by rw [h])) (fun h => hxntzl (h ▸ hq))
          · exact spans_frame hszr fun q hq => hframe q
              (fun h => hzntzr (h ▸ hq))
              (fun h => hdisj12 hgmem (h ▸ hq))
              (fun h => hxntzr (h ▸ hq))
          · intro q
            simp only [STree.nodes, List.mem_cons, List.mem_append]
            tauto
    · have hwnt : w ∉ x :: (tA.nodes ++ (z :: (tzl.nodes ++ tzr.nodes))) := by
        simpa [STree.nodes] using huout w rfl
      have hwx : w ≠ x := fun h => hwnt (h ▸ List.mem_cons_self _ _)
      have hxw : x ≠ w := hwx.symm
      have hzw : z ≠ w := fun h => hwnt (List.mem_cons_of_mem _
        (List.mem_append_right _ (h ▸ List.mem_cons_self _ _)))
      have hwz : w ≠ z := hzw.symm
      have hwntzl : w ∉ tzl.nodes := fun h => hwnt (List.mem_cons_of_mem _
        (List.mem_append_right _ (List.mem_cons_of_mem _ (List.mem_append_left _ h))))
      have hwntzr : w ∉ tzr.nodes := fun h => hwnt (List.mem_cons_of_mem _
        (List.mem_append_right _ (List.mem_cons_of_mem _ (List.mem_append_right _ h))))
      have hwnA : w ∉ tA.nodes := fun h => hwnt (List.mem_cons_of_mem _
        (List.mem_append_left _ h))
      rcases hgv : (m.get z).lr false with _ | g
      · have hg1 : (m.get z).lr0 = none := by simpa [Node.lr] using hgv
        rw [hg1] at hszl
        cases hszl
        have hdef := cavlRotate_eq_sn hz hupx hzw hgv
        rw [hdef]
        dsimp only
        simp only [Bool.not_false]
        refine ⟨trivial, ?_, ?_, ?_, ?_, ?_, ?_, ?_, ?_, ?_, ?_, ?_, ?_⟩
        · rw [up_get_setLr, Mem.get_setLr_ne hzx, Mem.get_setUp_ne hzx,
            up_get_setUp_self]
        · rw [lr_get_setLr_self]
          simp
        · rw [lr_get_setLr_self, if_neg (by simp), Mem.get_setLr_ne hzx,
            lr_get_setUp, lr_get_setUp, Mem.get_setLr_ne hzw]
        · rw [up_get_setLr, up_get_setLr, up_get_setUp_self]
        · rw [Mem.get_setLr_ne hxz, lr_get_setLr_self, if_pos rfl]
        · rw [Mem.get_setLr_ne hxz, lr_get_setLr_self, if_neg (by simp),
            lr_get_setUp, lr_get_setUp, Mem.get_setLr_ne hxw]
        · intro g2 hg2
          exact absurd hg2 (by simp)
        · simp only [bf_get_setLr, bf_get_setUp]
        · simp only [bf_get_setLr, bf_get_setUp]
        · intro w2 hw2
          injection hw2 with hw2
          subst hw2
          constructor
          · intro hcase
            have hside : (decide ((m.get w).lr true = some x)) = true := by
              simp [Node.lr, hcase]
            rw [hside]
            constructor
            · rw [Mem.get_setLr_ne hwz, Mem.get_setLr_ne hwx,
                Mem.get_setUp_ne hwx, Mem.get_setUp_ne hwz, Mem.get_setLr_self]
              simp
            · rw [Mem.get_setLr_ne hwz, Mem.get_setLr_ne hwx,
                Mem.get_setUp_ne hwx, Mem.get_setUp_ne hwz, Mem.get_setLr_self]
              simp
          · intro hcase
            have hside : (decide ((m.get w).lr true = some x)) = false := by
              simp [Node.lr, hcase]
            rw [hside]
            constructor
            · rw [Mem.get_setLr_ne hwz, Mem.get_setLr_ne hwx,
                Mem.get_setUp_ne hwx, Mem.get_setUp_ne hwz, Mem.get_setLr_self]
              simp
            · rw [Mem.get_setLr_ne hwz, Mem.get_setLr_ne hwx,
                Mem.get_setUp_ne hwx, Mem.get_setUp_ne hwz, Mem.get_setLr_self]
              simp
        · intro q hqx hqz hqg hqw
          have hqw2 : q ≠ w := fun h => hqw (by rw [h])
          rw [Mem.setLr_ne hqz, Mem.setLr_ne hqx, Mem.setUp_ne hqx,
            Mem.setUp_ne hqz, Mem.setLr_ne hqw2]
        · have hMz : (((((m.setLr w (decide ((m.get w).lr true = some x))
              (some z)).setUp z (some w)).setUp x (some z)).setLr x true
              none).setLr z false (some x)) z =
              some ⟨some w, some x, (m.get z).lr1, (m.get z).bf⟩ := by
            rw [Mem.setLr_self_raw, Mem.get_setLr_ne hzx, Mem.get_setUp_ne hzx,
              Mem.get_setUp_self, Mem.get_setLr_ne hzw]
            simp
          have hMx : (((((m.setLr w (decide ((m.get w).lr true = some x))
              (some z)).setUp z (some w)).setUp x (some z)).setLr x true
              none).setLr z false (some x)) x =
              some ⟨some z, (m.get x).lr0, none, (m.get x).bf⟩ := by
            rw [Mem.setLr_ne hxz, Mem.setLr_self_raw, Mem.get_setUp_self,
              Mem.get_setUp_ne hxz, Mem.get_setLr_ne hxw]
            simp
          have hframe : ∀ q, q ≠ z → q ≠ x → q ≠ w →
              (((((m.setLr w (decide ((m.get w).lr true = some x))
              (some z)).setUp z (some w)).setUp x (some z)).setLr x true
              none).setLr z false (some x)) q = m q := by
            intro q h1 h3 h4
            rw [Mem.setLr_ne h1, Mem.setLr_ne h3, Mem.setUp_ne h3,
              Mem.setUp_ne h1, Mem.setLr_ne h4]
          refine ⟨STree.node z (STree.node x tA STree.leaf) tzr,
            Spans.node (some w) z (STree.node x tA STree.leaf) tzr
              ⟨some w, some x, (m.get z).lr1, (m.get z).bf⟩ hMz rfl ?_ ?_, ?_⟩
          · refine Spans.node (some z) x tA STree.leaf
              ⟨some z, (m.get x).lr0, none, (m.get x).bf⟩ hMx rfl ?_
              (Spans.leaf _)
            · exact spans_frame hsA fun q hq => hframe q
                (fun h => hznA (h ▸ hq)) (fun h => hxnA (h ▸ hq))
                (fun h => hwnA (h ▸ hq))
          · exact spans_frame hszr fun q hq => hframe q
              (fun h => hzntzr (h ▸ hq)) (fun h => hxntzr (h ▸ hq))
              (fun h => hwntzr (h ▸ hq))
          · intro q
            simp only [STree.nodes, List.mem_cons, List.mem_append]
            tauto
      · have hg1 : (m.get z).lr0 = some g := by simpa [Node.lr] using hgv
        rw [hg1] at hszl
        have hgmem : g ∈ tzl.nodes := spans_rt_mem hszl
        have hgz : g ≠ z := fun h => hzntzl (h ▸ hgmem)
        have hzg : z ≠ g := hgz.symm
        have hgx : g ≠ x := fun h => hxntzl (h ▸ hgmem)
        have hxg : x ≠ g := hgx.symm
        have hgw : g ≠ w := fun h => hwntzl (h ▸ hgmem)
        have hwg : w ≠ g := hgw.symm
        have hdef := cavlRotate_eq_ss hz hupx hzw hgv
        rw [hdef]
        dsimp only
        simp only [Bool.not_false]
        refine ⟨trivial, ?_, ?_, ?_, ?_, ?_, ?_, ?_, ?_, ?_, ?_, ?_, ?_⟩
        · rw [up_get_setLr, Mem.get_setUp_ne hzg, Mem.get_setLr_ne hzx,
            Mem.get_setUp_ne hzx, up_get_setUp_self]
        · rw [lr_get_setLr_self]
          simp
        · rw [lr_get_setLr_self, if_neg (by simp), Mem.get_setUp_ne hzg,
            Mem.get_setLr_ne hzx, lr_get_setUp, lr_get_setUp, Mem.get_setLr_ne hzw]
        · rw [up_get_setLr, Mem.get_setUp_ne hxg, up_get_setLr, up_get_setUp_self]
        · rw [Mem.get_setLr_ne hxz, Mem.get_setUp_ne hxg, lr_get_setLr_self,
            if_pos rfl]
        · rw [Mem.get_setLr_ne hxz, Mem.get_setUp_ne hxg, lr_get_setLr_self,
            if_neg (by simp), lr_get_setUp, lr_get_setUp, Mem.get_setLr_ne hxw]
        · intro g2 hg2
          injection hg2 with hg2
          subst hg2
          rw [Mem.get_setLr_ne hgz, up_get_setUp_self]
        · simp only [bf_get_setLr, bf_get_setUp]
        · simp only [bf_get_setLr, bf_get_setUp]
        · intro w2 hw2
          injection hw2 with hw2
          subst hw2
          constructor
          · intro hcase
            have hside : (decide ((m.get w).lr true = some x)) = true := by
              simp [Node.lr, hcase]
            rw [hside]
            constructor
            · rw [Mem.get_setLr_ne hwz, Mem.get_setUp_ne hwg, Mem.get_setLr_ne hwx,
                Mem.get_setUp_ne hwx, Mem.get_setUp_ne hwz, Mem.get_setLr_self]
              simp
            · rw [Mem.get_setLr_ne hwz, Mem.get_setUp_ne hwg, Mem.get_setLr_ne hwx,
                Mem.get_setUp_ne hwx, Mem.get_setUp_ne hwz, Mem.get_setLr_self]
              simp
          · intro hcase
            have hside : (decide ((m.get w).lr true = some x)) = false := by
              simp [Node.lr, hcase]
            rw [hside]
            constructor
            · rw [Mem.get_setLr_ne hwz, Mem.get_setUp_ne hwg, Mem.get_setLr_ne hwx,
                Mem.get_setUp_ne hwx, Mem.get_setUp_ne hwz, Mem.get_setLr_self]
              simp
            · rw [Mem.get_setLr_ne hwz, Mem.get_setUp_ne hwg, Mem.get_setLr_ne hwx,
                Mem.get_setUp_ne hwx, Mem.get_setUp_ne hwz, Mem.get_setLr_self]
              simp
        · intro q hqx hqz hqg hqw
          have hqg2 : q ≠ g := fun h => hqg (by rw [h])
          have hqw2 : q ≠ w := fun h => hqw (by rw [h])
          rw [Mem.setLr_ne hqz, Mem.setUp_ne hqg2, Mem.setLr_ne hqx,
            Mem.setUp_ne hqx, Mem.setUp_ne hqz, Mem.setLr_ne hqw2]
        · have hMz : ((((((m.setLr w (decide ((m.get w).lr true = some x))
              (some z)).setUp z (some w)).setUp x (some z)).setLr x true
              (some g)).setUp g (some x)).setLr z false (some x)) z =
              some ⟨some w, some x, (m.get z).lr1, (m.get z).bf⟩ := by
            rw [Mem.setLr_self_raw, Mem.get_setUp_ne hzg, Mem.get_setLr_ne hzx,
              Mem.get_setUp_ne hzx, Mem.get_setUp_self, Mem.get_setLr_ne hzw]
            simp
          have hMx : ((((((m.setLr w (decide ((m.get w).lr true = some x))
              (some z)).setUp z (some w)).setUp x (some z)).setLr x true
              (some g)).setUp g (some x)).setLr z false (some x)) x =
              some ⟨some z, (m.get x).lr0, some g, (m.get x).bf⟩ := by
            rw [Mem.setLr_ne hxz, Mem.setUp_ne hxg, Mem.setLr_self_raw,
              Mem.get_setUp_self, Mem.get_setUp_ne hxz, Mem.get_setLr_ne hxw]
            simp
          have hMg : ((((((m.setLr w (decide ((m.get w).lr true = some x))
              (some z)).setUp z (some w)).setUp x (some z)).setLr x true
              (some g)).setUp g (some x)).setLr z false (some x)) g =
              some ⟨some x, (m.get g).lr0, (m.get g).lr1, (m.get g).bf⟩ := by
            rw [Mem.setLr_ne hgz, Mem.setUp_self_raw, Mem.get_setLr_ne hgx,
              Mem.get_setUp_ne hgx, Mem.get_setUp_ne hgz, Mem.get_setLr_ne hgw]
          have hframe : ∀ q, q ≠ z → q ≠ g → q ≠ x → q ≠ w →
              ((((((m.setLr w (decide ((m.get w).lr true = some x))
              (some z)).setUp z (some w)).setUp x (some z)).setLr x true
              (some g)).setUp g (some x)).setLr z false (some x)) q = m q := by
            intro q h1 h2 h3 h4
            rw [Mem.setLr_ne h1, Mem.setUp_ne h2, Mem.setLr_ne h3,
              Mem.setUp_ne h3, Mem.setUp_ne h1, Mem.setLr_ne h4]
          refine ⟨STree.node z (STree.node x tA tzl) tzr,
            Spans.node (some w) z (STree.node x tA tzl) tzr
              ⟨some w, some x, (m.get z).lr1, (m.get z).bf⟩ hMz rfl ?_ ?_, ?_⟩
          · refine Spans.node (some z) x tA tzl
              ⟨some z, (m.get x).lr0, some g, (m.get x).bf⟩ hMx rfl ?_ ?_
            · exact spans_frame hsA fun q hq => hframe q
                (fun h => hznA (h ▸ hq))
                (fun h => hdisjAZ (h ▸ hq) (List.mem_cons_of_mem _
                  (List.mem_append_left _ hgmem)))
                (fun h => hxnA (h ▸ hq)) (fun h => hwnA (h ▸ hq))
            · refine spans_update (some x) hszl hnd_tzl ?_ ?_
              · intro q hq
                injection hq with hq
                subst hq
                exact ⟨(m.get g).bf, hMg⟩
              · intro q hq hne
                exact hframe q (fun h => hzntzl (h ▸ hq))
                  (fun h => hne (by rw [h])) (fun h => hxntzl (h ▸ hq))
                  (fun h => hwntzl (h ▸ hq))
          · exact spans_frame hszr fun q hq => hframe q
              (fun h => hzntzr (h ▸ hq))
              (fun h => hdisj12 hgmem (h ▸ hq))
              (fun h => hxntzr (h ▸ hq)) (fun h => hwntzr (h ▸ hq))
          · intro q
            simp only [STree.nodes, List.mem_cons, List.mem_append]
            tauto
  case true =>
    have hz0 : (m.get x).lr0 = some z := by simpa using hz
    rw [hz0] at hsA
    obtain ⟨tzl, tzr, htA, hpz, hupz, hszl, hszr⟩ := spans_some_inv hsA
    subst htA
    simp only [STree.nodes] at hnd
    have hcons := List.nodup_cons.mp hnd
    have hx1 : x ∉ (z :: (tzl.nodes ++ tzr.nodes)) ++ tB.nodes := hcons.1
    have hnd1 := hcons.2
    have hndA : (z :: (tzl.nodes ++ tzr.nodes)).Nodup := hnd1.of_append_left
    have hndB : tB.nodes.Nodup := hnd1.of_append_right
    have hdisjAB := List.disjoint_of_nodup_append hnd1
    have hconsA := List.nodup_cons.mp hndA
    have hz1 : z ∉ tzl.nodes ++ tzr.nodes := hconsA.1
    have hndzz := hconsA.2
    have hnd_tzl : tzl.nodes.Nodup := hndzz.of_append_left
    have hnd_tzr : tzr.nodes.Nodup := hndzz.of_append_right
    have hdisj12 := List.disjoint_of_nodup_append hndzz
    have hzx : z ≠ x := by
      intro h
      exact hx1 (List.mem_append_left _ (h ▸ List.mem_cons_self _ _))
    have hxz : x ≠ z := hzx.symm
    have hxntzl : x ∉ tzl.nodes := fun h =>
      hx1 (List.mem_append_left _ (List.mem_cons_of_mem _ (List.mem_append_left _ h)))
    have hxntzr : x ∉ tzr.nodes := fun h =>
      hx1 (List.mem_append_left _ (List.mem_cons_of_mem _ (List.mem_append_right _ h)))
    have hxnB : x ∉ tB.nodes := fun h => hx1 (List.mem_append_right _ h)
    have hzntzl : z ∉ tzl.nodes := fun h => hz1 (List.mem_append_left _ h)
    have hzntzr : z ∉ tzr.nodes := fun h => hz1 (List.mem_append_right _ h)
    have hznB : z ∉ tB.nodes := hdisjAB (List.mem_cons_self _ _)
    rcases u with _ | w
    · rcases hgv : (m.get z).lr true with _ | g
      · have hg1 : (m.get z).lr1 = none := by simpa [Node.lr] using hgv
        rw [hg1] at hszr
        cases hszr
        have hdef := cavlRotate_eq_nn hz hupx hgv
        rw [hdef]
        dsimp only
        simp only [Bool.not_true]
        refine ⟨trivial, ?_, ?_, ?_, ?_, ?_, ?_, ?_, ?_, ?_, ?_, ?_, ?_⟩
        · rw [up_get_setLr, Mem.get_setLr_ne hzx, Mem.get_setUp_ne hzx,
            up_get_setUp_self]
        · rw [lr_get_setLr_self]
          simp
        · rw [lr_get_setLr_self, if_neg (by simp), Mem.get_setLr_ne hzx,
            lr_get_setUp, lr_get_setUp]
        · rw [up_get_setLr, up_get_setLr, up_get_setUp_self]
        · rw [Mem.get_setLr_ne hxz, lr_get_setLr_self, if_pos rfl]
        · rw [Mem.get_setLr_ne hxz, lr_get_setLr_self, if_neg (by simp),
            lr_get_setUp, lr_get_setUp]
        · intro g2 hg2
          exact absurd hg2 (by simp)
        · simp only [bf_get_setLr, bf_get_setUp]
        · simp only [bf_get_setLr, bf_get_setUp]
        · intro w2 hw2
          exact absurd hw2 (by simp)
        · intro q hqx hqz hqg hqw
          rw [Mem.setLr_ne hqz, Mem.setLr_ne hqx, Mem.setUp_ne hqx,
            Mem.setUp_ne hqz]
        · have hMz : ((((m.setUp z none).setUp x (some z)).setLr x false
              none).setLr z true (some x)) z =
              some ⟨none, (m.get z).lr0, some x, (m.get z).bf⟩ := by
            rw [Mem.setLr_self_raw, Mem.get_setLr_ne hzx, Mem.get_setUp_ne hzx,
              Mem.get_setUp_self]
            simp
          have hMx : ((((m.setUp z none).setUp x (some z)).setLr x false
              none).setLr z true (some x)) x =
              some ⟨some z, none, (m.get x).lr1, (m.get x).bf⟩ := by
            rw [Mem.setLr_ne hxz, Mem.setLr_self_raw, Mem.get_setUp_self,
              Mem.get_setUp_ne hxz]
            simp
          have hframe : ∀ q, q ≠ z → q ≠ x →
              ((((m.setUp z none).setUp x (some z)).setLr x false
              none).setLr z true (some x)) q = m q := by
            intro q h1 h3
            rw [Mem.setLr_ne h1, Mem.setLr_ne h3, Mem.setUp_ne h3, Mem.setUp_ne h1]
          refine ⟨STree.node z tzl (STree.node x STree.leaf tB),
            Spans.node none z tzl (STree.node x STree.leaf tB)
              ⟨none, (m.get z).lr0, some x, (m.get z).bf⟩ hMz rfl ?_ ?_, ?_⟩
          · exact spans_frame hszl fun q hq => hframe q
              (fun h => hzntzl (h ▸ hq)) (fun h => hxntzl (h ▸ hq))
          · refine Spans.node (some z) x STree.leaf tB
              ⟨some z, none, (m.get x).lr1, (m.get x).bf⟩ hMx rfl
              (Spans.leaf _) ?_
            · exact spans_frame hsB fun q hq => hframe q
                (fun h => hznB (h ▸ hq)) (fun h => hxnB (h ▸ hq))
          · intro q
            simp only [STree.nodes, List.mem_cons, List.mem_append]
            tauto
      · have hg1 : (m.get z).lr1 = some g := by simpa [Node.lr] using hgv
        rw [hg1] at hszr
        have hgmem : g ∈ tzr.nodes := spans_rt_mem hszr
        have hgz : g ≠ z := fun h => hzntzr (h ▸ hgmem)
        have hzg : z ≠ g := hgz.symm
        have hgx : g ≠ x := fun h => hxntzr (h ▸ hgmem)
        have hxg : x ≠ g := hgx.symm
        have hdef := cavlRotate_eq_ns hz hupx hgv
        rw [hdef]
        dsimp only
        simp only [Bool.not_true]
        refine ⟨trivial, ?_, ?_, ?_, ?_, ?_, ?_, ?_, ?_, ?_, ?_, ?_, ?_⟩
        · rw [up_get_setLr, Mem.get_setUp_ne hzg, Mem.get_setLr_ne hzx,
            Mem.get_setUp_ne hzx, up_get_setUp_self]
        · rw [lr_get_setLr_self]
          simp
        · rw [lr_get_setLr_self, if_neg (by simp), Mem.get_setUp_ne hzg,
            Mem.get_setLr_ne hzx, lr_get_setUp, lr_get_setUp]
        · rw [up_get_setLr, Mem.get_setUp_ne hxg, up_get_setLr, up_get_setUp_self]
        · rw [Mem.get_setLr_ne hxz, Mem.get_setUp_ne hxg, lr_get_setLr_self,
            if_pos rfl]
        · rw [Mem.get_setLr_ne hxz, Mem.get_setUp_ne hxg, lr_get_setLr_self,
            if_neg (by simp), lr_get_setUp, lr_get_setUp]
        · intro g2 hg2
          injection hg2 with hg2
          subst hg2
          rw [Mem.get_setLr_ne hgz, up_get_setUp_self]
        · simp only [bf_get_setLr, bf_get_setUp]
        · simp only [bf_get_setLr, bf_get_setUp]
        · intro w2 hw2
          exact absurd hw2 (by simp)
        · intro q hqx hqz hqg hqw
          have hqg2 : q ≠ g := fun h => hqg (by rw [h])
          rw [Mem.setLr_ne hqz, Mem.setUp_ne hqg2, Mem.setLr_ne hqx,
            Mem.setUp_ne hqx, Mem.setUp_ne hqz]
        · have hMz : (((((m.setUp z none).setUp x (some z)).setLr x false
              (some g)).setUp g (some x)).setLr z true (some x)) z =
              some ⟨none, (m.get z).lr0, some x, (m.get z).bf⟩ := by
            rw [Mem.setLr_self_raw, Mem.get_setUp_ne hzg, Mem.get_setLr_ne hzx,
              Mem.get_setUp_ne hzx, Mem.get_setUp_self]
            simp
          have hMx : (((((m.setUp z none).setUp x (some z)).setLr x false
              (some g)).setUp g (some x)).setLr z true (some x)) x =
              some ⟨some z, some g, (m.get x).lr1, (m.get x).bf⟩ := by
            rw [Mem.setLr_ne hxz, Mem.setUp_ne hxg, Mem.setLr_self_raw,
              Mem.get_setUp_self, Mem.get_setUp_ne hxz]
            simp
          have hMg : (((((m.setUp z none).setUp x (some z)).setLr x false
              (some g)).setUp g (some x)).setLr z true (some x)) g =
              some ⟨some x, (m.get g).lr0, (m.get g).lr1, (m.get g).bf⟩ := by
            rw [Mem.setLr_ne hgz, Mem.setUp_self_raw, Mem.get_setLr_ne hgx,
              Mem.get_setUp_ne hgx, Mem.get_setUp_ne hgz]
          have hframe : ∀ q, q ≠ z → q ≠ g → q ≠ x →
              (((((m.setUp z none).setUp x (some z)).setLr x false
              (some g)).setUp g (some x)).setLr z true (some x)) q = m q := by
            intro q h1 h2 h3
            rw [Mem.setLr_ne h1, Mem.setUp_ne h2, Mem.setLr_ne h3,
              Mem.setUp_ne h3, Mem.setUp_ne h1]
          refine ⟨STree.node z tzl (STree.node x tzr tB),
            Spans.node none z tzl (STree.node x tzr tB)
              ⟨none, (m.get z).lr0, some x, (m.get z).bf⟩ hMz rfl ?_ ?_, ?_⟩
          · exact spans_frame hszl fun q hq => hframe q
              (fun h => hzntzl (h ▸ hq)) (fun h => hdisj12 hq (h ▸ hgmem))
              (fun h => hxntzl (h ▸ hq))
          · refine Spans.node (some z) x tzr tB
              ⟨some z, some g, (m.get x).lr1, (m.get x).bf⟩ hMx rfl ?_ ?_
            · refine spans_update (some x) hszr hnd_tzr ?_ ?_
              · intro q hq
                injection hq with hq
                subst hq
                exact ⟨(m.get g).bf, hMg⟩
              · intro q hq hne
                exact hframe q (fun h => hzntzr (h ▸ hq))
                  (fun h => hne (by rw [h])) (fun h => hxntzr (h ▸ hq))
            · exact spans_frame hsB fun q hq => hframe q
                (fun h => hznB (h ▸ hq))
                (fun h => hdisjAB (List.mem_cons_of_mem _
                  (List.mem_append_right _ hgmem)) (h ▸ hq))
                (fun h => hxnB (h ▸ hq))
          · intro q
            simp only [STree.nodes, List.mem_cons, List.mem_append]
            tauto
    · have hwnt : w ∉ x :: ((z :: (tzl.nodes ++ tzr.nodes)) ++ tB.nodes) := by
        simpa [STree.nodes] using huout w rfl
      have hwx : w ≠ x := fun h => hwnt (h ▸ List.mem_cons_self _ _)
      have hxw : x ≠ w := hwx.symm
      have hzw : z ≠ w := fun h => hwnt (List.mem_cons_of_mem _
        (List.mem_append_left _ (h ▸ List.mem_cons_self _ _)))
      have hwz : w ≠ z := hzw.symm
      have hwntzl : w ∉ tzl.nodes := fun h => hwnt (List.mem_cons_of_mem _
        (List.mem_append_left _ (List.mem_cons_of_mem _ (List.mem_append_left _ h))))
      have hwntzr : w ∉ tzr.nodes := fun h => hwnt (List.mem_cons_of_mem _
        (List.mem_append_left _ (List.mem_cons_of_mem _ (List.mem_append_right _ h))))
      have hwnB : w ∉ tB.nodes := fun h => hwnt (List.mem_cons_of_mem _
        (List.mem_append_right _ h))
      rcases hgv : (m.get z).lr true with _ | g
      · have hg1 : (m.get z).lr1 = none := by simpa [Node.lr] using hgv
        rw [hg1] at hszr
        cases hszr
        have hdef := cavlRotate_eq_sn hz hupx hzw hgv
        rw [hdef]
        dsimp only
        simp only [Bool.not_true]
        refine ⟨trivial, ?_, ?_, ?_, ?_, ?_, ?_, ?_, ?_, ?_, ?_, ?_, ?_⟩
        · rw [up_get_setLr, Mem.get_setLr_ne hzx, Mem.get_setUp_ne hzx,
            up_get_setUp_self]
        · rw [lr_get_setLr_self]
          simp
        · rw [lr_get_setLr_self, if_neg (by simp), Mem.get_setLr_ne hzx,
            lr_get_setUp, lr_get_setUp, Mem.get_setLr_ne hzw]
        · rw [up_get_setLr, up_get_setLr, up_get_setUp_self]
        · rw [Mem.get_setLr_ne hxz, lr_get_setLr_self, if_pos rfl]
        · rw [Mem.get_setLr_ne hxz, lr_get_setLr_self, if_neg (by simp),
            lr_get_setUp, lr_get_setUp, Mem.get_setLr_ne hxw]
        · intro g2 hg2
          exact absurd hg2 (by simp)
        · simp only [bf_get_setLr, bf_get_setUp]
        · simp only [bf_get_setLr, bf_get_setUp]
        · intro w2 hw2
          injection hw2 with hw2
          subst hw2
          constructor
          · intro hcase
            have hside : (decide ((m.get w).lr true = some x)) = true := by
              simp [Node.lr, hcase]
            rw [hside]
            constructor
            · rw [Mem.get_setLr_ne hwz, Mem.get_setLr_ne hwx,
                Mem.get_setUp_ne hwx, Mem.get_setUp_ne hwz, Mem.get_setLr_self]
              simp
            · rw [Mem.get_setLr_ne hwz, Mem.get_setLr_ne hwx,
                Mem.get_setUp_ne hwx, Mem.get_setUp_ne hwz, Mem.get_setLr_self]
              simp
          · intro hcase
            have hside : (decide ((m.get w).lr true = some x)) = false := by
              simp [Node.lr, hcase]
            rw [hside]
            constructor
            · rw [Mem.get_setLr_ne hwz, Mem.get_setLr_ne hwx,
                Mem.get_setUp_ne hwx, Mem.get_setUp_ne hwz, Mem.get_setLr_self]
              simp
            · rw [Mem.get_setLr_ne hwz, Mem.get_setLr_ne hwx,
                Mem.get_setUp_ne hwx, Mem.get_setUp_ne hwz, Mem.get_setLr_self]
              simp
        · intro q hqx hqz hqg hqw
          have hqw2 : q ≠ w := fun h => hqw (by rw [h])
          rw [Mem.setLr_ne hqz, Mem.setLr_ne hqx, Mem.setUp_ne hqx,
            Mem.setUp_ne hqz, Mem.setLr_ne hqw2]
        · have hMz : (((((m.setLr w (decide ((m.get w).lr true = some x))
              (some z)).setUp z (some w)).setUp x (some z)).setLr x false
              none).setLr z true (some x)) z =
              some ⟨some w, (m.get z).lr0, some x, (m.get z).bf⟩ := by
            rw [Mem.setLr_self_raw, Mem.get_setLr_ne hzx, Mem.get_setUp_ne hzx,
              Mem.get_setUp_self, Mem.get_setLr_ne hzw]
            simp
          have hMx : (((((m.setLr w (decide ((m.get w).lr true = some x))
              (some z)).setUp z (some w)).setUp x (some z)).setLr x false
              none).setLr z true (some x)) x =
              some ⟨some z, none, (m.get x).lr1, (m.get x).bf⟩ := by
            rw [Mem.setLr_ne hxz, Mem.setLr_self_raw, Mem.get_setUp_self,
              Mem.get_setUp_ne hxz, Mem.get_setLr_ne hxw]
            simp
          have hframe : ∀ q, q ≠ z → q ≠ x → q ≠ w →
              (((((m.setLr w (decide ((m.get w).lr true = some x))
              (some z)).setUp z (some w)).setUp x (some z)).setLr x false
              none).setLr z true (some x)) q = m q := by
            intro q h1 h3 h4
            rw [Mem.setLr_ne h1, Mem.setLr_ne h3, Mem.setUp_ne h3,
              Mem.setUp_ne h1, Mem.setLr_ne h4]
          refine ⟨STree.node z tzl (STree.node x STree.leaf tB),
            Spans.node (some w) z tzl (STree.node x STree.leaf tB)
              ⟨some w, (m.get z).lr0, some x, (m.get z).bf⟩ hMz rfl ?_ ?_, ?_⟩
          · exact spans_frame hszl fun q hq => hframe q
              (fun h => hzntzl (h ▸ hq)) (fun h => hxntzl (h ▸ hq))
              (fun h => hwntzl (h ▸ hq))
          · refine Spans.node (some z) x STree.leaf tB
              ⟨some z, none, (m.get x).lr1, (m.get x).bf⟩ hMx rfl
              (Spans.leaf _) ?_
            · exact spans_frame hsB fun q hq => hframe q
                (fun h => hznB (h ▸ hq)) (fun h => hxnB (h ▸ hq))
                (fun h => hwnB (h ▸ hq))
          · intro q
            simp only [STree.nodes, List.mem_cons, List.mem_append]
            tauto
      · have hg1 : (m.get z).lr1 = some g := by simpa [Node.lr] using hgv
        rw [hg1] at hszr
        have hgmem : g ∈ tzr.nodes := spans_rt_mem hszr
        have hgz : g ≠ z := fun h => hzntzr (h ▸ hgmem)
        have hzg : z ≠ g := hgz.symm
        have hgx : g ≠ x := fun h => hxntzr (h ▸ hgmem)
        have hxg : x ≠ g := hgx.symm
        have hgw : g ≠ w := fun h => hwntzr (h ▸ hgmem)
        have hwg : w ≠ g := hgw.symm
        have hdef := cavlRotate_eq_ss hz hupx hzw hgv
        rw [hdef]
        dsimp only
        simp only [Bool.not_true]
        refine ⟨trivial, ?_, ?_, ?_, ?_, ?_, ?_, ?_, ?_, ?_, ?_, ?_, ?_⟩
        · rw [up_get_setLr, Mem.get_setUp_ne hzg, Mem.get_setLr_ne hzx,
            Mem.get_setUp_ne hzx, up_get_setUp_self]
        · rw [lr_get_setLr_self]
          simp
        · rw [lr_get_setLr_self, if_neg (by simp), Mem.get_setUp_ne hzg,
            Mem.get_setLr_ne hzx, lr_get_setUp, lr_get_setUp, Mem.get_setLr_ne hzw]
        · rw [up_get_setLr, Mem.get_setUp_ne hxg, up_get_setLr, up_get_setUp_self]
        · rw [Mem.get_setLr_ne hxz, Mem.get_setUp_ne hxg, lr_get_setLr_self,
            if_pos rfl]
        · rw [Mem.get_setLr_ne hxz, Mem.get_setUp_ne hxg, lr_get_setLr_self,
            if_neg (by simp), lr_get_setUp, lr_get_setUp, Mem.get_setLr_ne hxw]
        · intro g2 hg2
          injection hg2 with hg2
          subst hg2
          rw [Mem.get_setLr_ne hgz, up_get_setUp_self]
        · simp only [bf_get_setLr, bf_get_setUp]
        · simp only [bf_get_setLr, bf_get_setUp]
        · intro w2 hw2
          injection hw2 with hw2
          subst hw2
          constructor
          · intro hcase
            have hside : (decide ((m.get w).lr true = some x)) = true := by
              simp [Node.lr, hcase]
            rw [hside]
            constructor
            · rw [Mem.get_setLr_ne hwz, Mem.get_setUp_ne hwg, Mem.get_setLr_ne hwx,
                Mem.get_setUp_ne hwx, Mem.get_setUp_ne hwz, Mem.get_setLr_self]
              simp
            · rw [Mem.get_setLr_ne hwz, Mem.get_setUp_ne hwg, Mem.get_setLr_ne hwx,
                Mem.get_setUp_ne hwx, Mem.get_setUp_ne hwz, Mem.get_setLr_self]
              simp
          · intro hcase
            have hside : (decide ((m.get w).lr true = some x)) = false := by
              simp [Node.lr, hcase]
            rw [hside]
            constructor
            · rw [Mem.get_setLr_ne hwz, Mem.get_setUp_ne hwg, Mem.get_setLr_ne hwx,
                Mem.get_setUp_ne hwx, Mem.get_setUp_ne hwz, Mem.get_setLr_self]
              simp
            · rw [Mem.get_setLr_ne hwz, Mem.get_setUp_ne hwg, Mem.get_setLr_ne hwx,
                Mem.get_setUp_ne hwx, Mem.get_setUp_ne hwz, Mem.get_setLr_self]
              simp
        · intro q hqx hqz hqg hqw
          have hqg2 : q ≠ g := fun h => hqg (by rw [h])
          have hqw2 : q ≠ w := fun h => hqw (by rw [h])
          rw [Mem.setLr_ne hqz, Mem.setUp_ne hqg2, Mem.setLr_ne hqx,
            Mem.setUp_ne hqx, Mem.setUp_ne hqz, Mem.setLr_ne hqw2]
        · have hMz : ((((((m.setLr w (decide ((m.get w).lr true = some x))
              (some z)).setUp z (some w)).setUp x (some z)).setLr x false
              (some g)).setUp g (some x)).setLr z true (some x)) z =
              some ⟨some w, (m.get z).lr0, some x, (m.get z).bf⟩ := by
            rw [Mem.setLr_self_raw, Mem.get_setUp_ne hzg, Mem.get_setLr_ne hzx,
              Mem.get_setUp_ne hzx, Mem.get_setUp_self, Mem.get_setLr_ne hzw]
            simp
          have hMx : ((((((m.setLr w (decide ((m.get w).lr true = some x))
              (some z)).setUp z (some w)).setUp x (some z)).setLr x false
              (some g)).setUp g (some x)).setLr z true (some x)) x =
              some ⟨some z, some g, (m.get x).lr1, (m.get x).bf⟩ := by
            rw [Mem.setLr_ne hxz, Mem.setUp_ne hxg, Mem.setLr_self_raw,
              Mem.get_setUp_self, Mem.get_setUp_ne hxz, Mem.get_setLr_ne hxw]
            simp
          have hMg : ((((((m.setLr w (decide ((m.get w).lr true = some x))
              (some z)).setUp z (some w)).setUp x (some z)).setLr x false
              (some g)).setUp g (some x)).setLr z true (some x)) g =
              some ⟨some x, (m.get g).lr0, (m.get g).lr1, (m.get g).bf⟩ := by
            rw [Mem.setLr_ne hgz, Mem.setUp_self_raw, Mem.get_setLr_ne hgx,
              Mem.get_setUp_ne hgx, Mem.get_setUp_ne hgz, Mem.get_setLr_ne hgw]
          have hframe : ∀ q, q ≠ z → q ≠ g → q ≠ x → q ≠ w →
              ((((((m.setLr w (decide ((m.get w).lr true = some x))
              (some z)).setUp z (some w)).setUp x (some z)).setLr x false
              (some g)).setUp g (some x)).setLr z true (some x)) q = m q := by
            intro q h1 h2 h3 h4
            rw [Mem.setLr_ne h1, Mem.setUp_ne h2, Mem.setLr_ne h3,
              Mem.setUp_ne h3, Mem.setUp_ne h1, Mem.setLr_ne h4]
          refine ⟨STree.node z tzl (STree.node x tzr tB),
            Spans.node (some w) z tzl (STree.node x tzr tB)
              ⟨some w, (m.get z).lr0, some x, (m.get z).bf⟩ hMz rfl ?_ ?_, ?_⟩
          · exact spans_frame hszl fun q hq => hframe q
              (fun h => hzntzl (h ▸ hq)) (fun h => hdisj12 hq (h ▸ hgmem))
              (fun h => hxntzl (h ▸ hq)) (fun h => hwntzl (h ▸ hq))
          · refine Spans.node (some z) x tzr tB
              ⟨some z, some g, (m.get x).lr1, (m.get x).bf⟩ hMx rfl ?_ ?_
            · refine spans_update (some x) hszr hnd_tzr ?_ ?_
              · intro q hq
                injection hq with hq
                subst hq
                exact ⟨(m.get g).bf, hMg⟩
              · intro q hq hne
                exact hframe q (fun h => hzntzr (h ▸ hq))
                  (fun h => hne (by rw [h])) (fun h => hxntzr (h ▸ hq))
                  (fun h => hwntzr (h ▸ hq))
            · exact spans_frame hsB fun q hq => hframe q
                (fun h => hznB (h ▸ hq))
                (fun h => hdisjAB (List.mem_cons_of_mem _
                  (List.mem_append_right _ hgmem)) (h ▸ hq))
                (fun h => hxnB (h ▸ hq)) (fun h => hwnB (h ▸ hq))
          · intro q
            simp only [STree.nodes, List.mem_cons, List.mem_append]
            tauto

/-- No child slot of any record in the memory points at `v`. -/
def NoSlotTo (m : Mem) (v : Nat) : Prop :=
  ∀ q : Nat, (m.get q).lr0 ≠ some v ∧ (m.get q).lr1 ≠ some v

/-- No parent link of any record in the memory points at `v`. -/
def NoUpTo (m : Mem) (v : Nat) : Prop :=
  ∀ q : Nat, (m.get q).up ≠ some v

theorem noSlot_lr {m : Mem} {v : Nat} (h : NoSlotTo m v) (q : Nat) (s : Bool) :
    (m.get q).lr s ≠ some v := by
  cases s
  · simpa [Node.lr] using (h q).1
  · simpa [Node.lr] using (h q).2

theorem noSlot_setLr {m : Mem} {v : Nat} (h : NoSlotTo m v) {w : Option Nat}
    (hw : w ≠ some v) (p : Nat) (s : Bool) : NoSlotTo (m.setLr p s w) v := by
  intro q
  by_cases hq : q = p
  · subst hq
    rw [Mem.get_setLr_self]
    cases s
    · exact ⟨hw, (h _).2⟩
    · exact ⟨(h _).1, hw⟩
  · rw [Mem.get_setLr_ne hq]; exact h q

theorem noSlot_setUp {m : Mem} {v : Nat} (h : NoSlotTo m v) (p : Nat)
    (u : Option Nat) : NoSlotTo (m.setUp p u) v := by
  intro q
  by_cases hq : q = p
  · subst hq; rw [Mem.get_setUp_self]; exact h _
  · rw [Mem.get_setUp_ne hq]; exact h q

theorem noSlot_setBf {m : Mem} {v : Nat} (h : NoSlotTo m v) (p : Nat)
    (b : Int) : NoSlotTo (m.setBf p b) v := by
  intro q
  by_cases hq : q = p
  · subst hq; rw [Mem.get_setBf_self]; exact h _
  · rw [Mem.get_setBf_ne hq]; exact h q

theorem noUp_setLr {m : Mem} {v : Nat} (h : NoUpTo m v) (p : Nat) (s : Bool)
    (w : Option Nat) : NoUpTo (m.setLr p s w) v := by
  intro q
  rw [up_get_setLr]; exact h q

theorem noUp_setUp {m : Mem} {v : Nat} (h : NoUpTo m v) {u : Option Nat}
    (hu : u ≠ some v) (p : Nat) : NoUpTo (m.setUp p u) v := by
  intro q
  by_cases hq : q = p
  · subst hq; rw [up_get_setUp_self]; exact hu
  · rw [Mem.get_setUp_ne hq]; exact h q

theorem noUp_setBf {m : Mem} {v : Nat} (h : NoUpTo m v) (p : Nat) (b : Int) :
    NoUpTo (m.setBf p b) v := by
  intro q
  rw [up_get_setBf]; exact h q

/-- A six-node memory: node 8 is the tree root with left child 4; the subtree
at 4 is 4(2(1, 3), 5), left-heavy, ready for a right rotation at 4. -/
def memRot : Mem :=
  memOf [(8, ⟨none, some 4, none, -1⟩),
         (4, ⟨some 8, some 2, some 5, -1⟩),
         (2, ⟨some 4, some 1, some 3, 0⟩),
         (1, ⟨some 2, none, none, 0⟩),
         (3, ⟨some 2, none, none, 0⟩),
         (5, ⟨some 4, none, none, 0⟩)]

/-- The shape of the subtree rooted at 4 in memRot. -/
def tRot : STree :=
  .node 4 (.node 2 (.node 1 .leaf .leaf) (.node 3 .leaf .leaf))
    (.node 5 .leaf .leaf)

/-- Witness for the rotation contract: right rotation at node 4 of memRot
promotes 2, moves the inner grandchild 3 under 4 with its parent pointer
fixed, hangs 2 under the former parent 8, and keeps both balance factors. -/
theorem cavlRotate_contract_witness :
    (cavlRotate memRot 4 true).2 = 2 ∧
    ((cavlRotate memRot 4 true).1.get 2).up = some 8 ∧
    ((cavlRotate memRot 4 true).1.get 2).lr true = some 4 ∧
    ((cavlRotate memRot 4 true).1.get 3).up = some 4 ∧
    ((cavlRotate memRot 4 true).1.get 4).bf = (memRot.get 4).bf ∧
    ((cavlRotate memRot 4 true).1.get 2).bf = (memRot.get 2).bf := by
  have hsp : Spans memRot (some 8) (some 4) tRot :=
    Spans.node (some 8) 4 (.node 2 (.node 1 .leaf .leaf) (.node 3 .leaf .leaf))
      (.node 5 .leaf .leaf) ⟨some 8, some 2, some 5, -1⟩ rfl rfl
      (Spans.node (some 4) 2 (.node 1 .leaf .leaf) (.node 3 .leaf .leaf)
        ⟨some 4, some 1, some 3, 0⟩ rfl rfl
        (Spans.node (some 2) 1 .leaf .leaf ⟨some 2, none, none, 0⟩ rfl rfl
          (Spans.leaf _) (Spans.leaf _))
        (Spans.node (some 2) 3 .leaf .leaf ⟨some 2, none, none, 0⟩ rfl rfl
          (Spans.leaf _) (Spans.leaf _)))
      (Spans.node (some 4) 5 .leaf .leaf ⟨some 4, none, none, 0⟩ rfl rfl
        (Spans.leaf _) (Spans.leaf _))
  have h := cavlRotate_contract memRot 4 2 true (some 8) tRot hsp
    (by decide) (by decide)
    (by intro w hw; cases hw; decide)
    (by intro w hw; cases hw; right; exact ⟨by decide, by decide⟩)
  refine ⟨h.1, h.2.1, h.2.2.1, ?_, ?_, ?_⟩
  · exact h.2.2.2.2.2.2.2.1 3 (by decide)
  · exact h.2.2.2.2.2.2.2.2.1
  · exact h.2.2.2.2.2.2.2.2.2.1

end Cavl

namespace Cavl

theorem rotate_frame (m : Mem) (x v : Nat) (r : Bool) (hv0 : v ≠ 0) (hx : x ≠ v)
    (h1 : NoSlotTo m v) (h2 : NoUpTo m v) :
    (cavlRotate m x r).1 v = m v ∧ NoSlotTo ((cavlRotate m x r).1) v ∧
    NoUpTo ((cavlRotate m x r).1) v ∧ (cavlRotate m x r).2 ≠ v := by
  have hzv : ((m.get x).lr (!r)).getD 0 ≠ v := by
    rcases hzc : (m.get x).lr (!r) with _ | z0
    · simpa using Ne.symm hv0
    · simp only [Option.getD_some]
      intro hEq
      subst hEq
      exact noSlot_lr h1 x (!r) hzc
  have hsv : ∀ a : Nat, a ≠ v → some a ≠ (some v : Option Nat) := by
    intro a ha hEq
    exact ha (by injection hEq)
  have habc : (cavlRotate m x r).1 v = m v ∧ NoSlotTo ((cavlRotate m x r).1) v ∧
      NoUpTo ((cavlRotate m x r).1) v := by
    simp only [cavlRotate]
    rcases hu : (m.get x).up with _ | u
    · dsimp only
      have n3 : NoSlotTo ((m.setUp (((m.get x).lr (!r)).getD 0)
          ((m.get x).up)).setUp x (some (((m.get x).lr (!r)).getD 0))) v :=
        noSlot_setUp (noSlot_setUp h1 _ _) _ _
      have u3 : NoUpTo ((m.setUp (((m.get x).lr (!r)).getD 0)
          ((m.get x).up)).setUp x (some (((m.get x).lr (!r)).getD 0))) v :=
        noUp_setUp (noUp_setUp h2 (h2 x) _) (hsv _ hzv) _
      have n4 := noSlot_setLr n3 (noSlot_lr n3 (((m.get x).lr (!r)).getD 0) r) x (!r)
      split
      · rename_i g heq2
        have hgv : g ≠ v := by
          intro hEq
          exact noSlot_lr n4 x (!r) (by rw [heq2, hEq])
        refine ⟨?_, noSlot_setLr (noSlot_setUp n4 _ _) (hsv _ hx) _ _,
          noUp_setLr (noUp_setUp (noUp_setLr u3 x (!r) _) (hsv _ hx) _) _ _ _⟩
        rw [Mem.setLr_ne (Ne.symm hzv), Mem.setUp_ne (Ne.symm hgv),
          Mem.setLr_ne (Ne.symm hx), Mem.setUp_ne (Ne.symm hx),
          Mem.setUp_ne (Ne.symm hzv)]
      · refine ⟨?_, noSlot_setLr n4 (hsv _ hx) _ _,
          noUp_setLr (noUp_setLr u3 x (!r) _) _ _ _⟩
        rw [Mem.setLr_ne (Ne.symm hzv), Mem.setLr_ne (Ne.symm hx),
          Mem.setUp_ne (Ne.symm hx), Mem.setUp_ne (Ne.symm hzv)]
    · dsimp only
      have huv : u ≠ v := by
        intro hEq
        exact h2 x (by rw [hu, hEq])
      have n1 : NoSlotTo (m.setLr u (decide ((m.get u).lr true = some x))
          (some (((m.get x).lr (!r)).getD 0))) v :=
        noSlot_setLr h1 (hsv _ hzv) _ _
      have u1 : NoUpTo (m.setLr u (decide ((m.get u).lr true = some x))
          (some (((m.get x).lr (!r)).getD 0))) v := noUp_setLr h2 _ _ _
      have n3 : NoSlotTo (((m.setLr u (decide ((m.get u).lr true = some x))
          (some (((m.get x).lr (!r)).getD 0))).setUp (((m.get x).lr (!r)).getD 0)
          (((m.setLr u (decide ((m.get u).lr true = some x))
            (some (((m.get x).lr (!r)).getD 0))).get x).up)).setUp x
          (some (((m.get x).lr (!r)).getD 0))) v :=
        noSlot_setUp (noSlot_setUp n1 _ _) _ _
      have u3 : NoUpTo (((m.setLr u (decide ((m.get u).lr true = some x))
          (some (((m.get x).lr (!r)).getD 0))).setUp (((m.get x).lr (!r)).getD 0)
          (((m.setLr u (decide ((m.get u).lr true = some x))
            (some (((m.get x).lr (!r)).getD 0))).get x).up)).setUp x
          (some (((m.get x).lr (!r)).getD 0))) v :=
        noUp_setUp (noUp_setUp u1 (u1 x) _) (hsv _ hzv) _
      have n4 := noSlot_setLr n3 (noSlot_lr n3 (((m.get x).lr (!r)).getD 0) r) x (!r)
      split
      · rename_i g heq2
        have hgv : g ≠ v := by
          intro hEq
          exact noSlot_lr n4 x (!r) (by rw [heq2, hEq])
        refine ⟨?_, noSlot_setLr (noSlot_setUp n4 _ _) (hsv _ hx) _ _,
          noUp_setLr (noUp_setUp (noUp_setLr u3 x (!r) _) (hsv _ hx) _) _ _ _⟩
        rw [Mem.setLr_ne (Ne.symm hzv), Mem.setUp_ne (Ne.symm hgv),
          Mem.setLr_ne (Ne.symm hx), Mem.setUp_ne (Ne.symm hx),
          Mem.setUp_ne (Ne.symm hzv), Mem.setLr_ne (Ne.symm huv)]
      · refine ⟨?_, noSlot_setLr n4 (hsv _ hx) _ _,
          noUp_setLr (noUp_setLr u3 x (!r) _) _ _ _⟩
        rw [Mem.setLr_ne (Ne.symm hzv), Mem.setLr_ne (Ne.symm hx),
          Mem.setUp_ne (Ne.symm hx), Mem.setUp_ne (Ne.symm hzv),
          Mem.setLr_ne (Ne.symm huv)]
  exact ⟨habc.1, habc.2.1, habc.2.2, hzv⟩

theorem adjust_frame (m : Mem) (x v : Nat) (inc : Bool) (hv0 : v ≠ 0) (hx : x ≠ v)
    (h1 : NoSlotTo m v) (h2 : NoUpTo m v) :
    (cavlAdjustBalance m x inc).1 v = m v ∧
    NoSlotTo ((cavlAdjustBalance m x inc).1) v ∧
    NoUpTo ((cavlAdjustBalance m x inc).1) v ∧
    (cavlAdjustBalance m x inc).2 ≠ v := by
  have hgetD : ∀ (M : Mem), NoSlotTo M v → ∀ (q : Nat) (b : Bool),
      ((M.get q).lr b).getD 0 ≠ v := by
    intro M hM q b
    rcases hc : (M.get q).lr b with _ | w
    · simpa using Ne.symm hv0
    · simp only [Option.getD_some]
      intro hEq
      subst hEq
      exact noSlot_lr hM q b hc
  simp only [cavlAdjustBalance]
  generalize (if inc then (1 : Int) else -1) = d
  generalize (if decide ((m.get x).bf + d < 0) then (1 : Int) else -1) = sg
  split
  · split
    · split <;>
        exact ⟨(Mem.setBf_ne (Ne.symm (hgetD m h1 _ _))).trans
            ((Mem.setBf_ne (Ne.symm hx)).trans
              (rotate_frame m x v _ hv0 hx h1 h2).1),
          noSlot_setBf (noSlot_setBf
            (rotate_frame m x v _ hv0 hx h1 h2).2.1 _ _) _ _,
          noUp_setBf (noUp_setBf
            (rotate_frame m x v _ hv0 hx h1 h2).2.2.1 _ _) _ _,
          (rotate_frame m x v _ hv0 hx h1 h2).2.2.2⟩
    · split
      · exact ⟨(Mem.setBf_ne (Ne.symm (hgetD m h1 _ _))).trans
            ((Mem.setBf_ne (Ne.symm (hgetD m h1 _ _))).trans
              ((Mem.setBf_ne (Ne.symm hx)).trans
                ((rotate_frame (cavlRotate m _ _).1 x v _ hv0 hx
                  (rotate_frame m _ v _ hv0 (hgetD m h1 x _) h1 h2).2.1
                  (rotate_frame m _ v _ hv0 (hgetD m h1 x _) h1 h2).2.2.1).1.trans
                  (rotate_frame m _ v _ hv0 (hgetD m h1 x _) h1 h2).1))),
          noSlot_setBf (noSlot_setBf (noSlot_setBf
            (rotate_frame (cavlRotate m _ _).1 x v _ hv0 hx
              (rotate_frame m _ v _ hv0 (hgetD m h1 x _) h1 h2).2.1
              (rotate_frame m _ v _ hv0
                (hgetD m h1 x _) h1 h2).2.2.1).2.1 _ _) _ _) _ _,
          noUp_setBf (noUp_setBf (noUp_setBf
            (rotate_frame (cavlRotate m _ _).1 x v _ hv0 hx
              (rotate_frame m _ v _ hv0 (hgetD m h1 x _) h1 h2).2.1
              (rotate_frame m _ v _ hv0
                (hgetD m h1 x _) h1 h2).2.2.1).2.2.1 _ _) _ _) _ _,
          (rotate_frame (cavlRotate m _ _).1 x v _ hv0 hx
            (rotate_frame m _ v _ hv0 (hgetD m h1 x _) h1 h2).2.1
            (rotate_frame m _ v _ hv0 (hgetD m h1 x _) h1 h2).2.2.1).2.2.2⟩
      · split
        · exact ⟨(Mem.setBf_ne (Ne.symm (hgetD m h1 _ _))).trans
              ((Mem.setBf_ne (Ne.symm (hgetD m h1 _ _))).trans
                ((Mem.setBf_ne (Ne.symm hx)).trans
                  ((rotate_frame (cavlRotate m _ _).1 x v _ hv0 hx
                    (rotate_frame m _ v _ hv0 (hgetD m h1 x _) h1 h2).2.1
                    (rotate_frame m _ v _ hv0
                      (hgetD m h1 x _) h1 h2).2.2.1).1.trans
                    (rotate_frame m _ v _ hv0 (hgetD m h1 x _) h1 h2).1))),
            noSlot_setBf (noSlot_setBf (noSlot_setBf
              (rotate_frame (cavlRotate m _ _).1 x v _ hv0 hx
                (rotate_frame m _ v _ hv0 (hgetD m h1 x _) h1 h2).2.1
                (rotate_frame m _ v _ hv0
                  (hgetD m h1 x _) h1 h2).2.2.1).2.1 _ _) _ _) _ _,
            noUp_setBf (noUp_setBf (noUp_setBf
              (rotate_frame (cavlRotate m _ _).1 x v _ hv0 hx
                (rotate_frame m _ v _ hv0 (hgetD m h1 x _) h1 h2).2.1
                (rotate_frame m _ v _ hv0
                  (hgetD m h1 x _) h1 h2).2.2.1).2.2.1 _ _) _ _) _ _,
            (rotate_frame (cavlRotate m _ _).1 x v _ hv0 hx
              (rotate_frame m _ v _ hv0 (hgetD m h1 x _) h1 h2).2.1
              (rotate_frame m _ v _ hv0 (hgetD m h1 x _) h1 h2).2.2.1).2.2.2⟩
        · exact ⟨(Mem.setBf_ne (Ne.symm (hgetD m h1 _ _))).trans
              ((Mem.setBf_ne (Ne.symm hx)).trans
                ((rotate_frame (cavlRotate m _ _).1 x v _ hv0 hx
                  (rotate_frame m _ v _ hv0 (hgetD m h1 x _) h1 h2).2.1
                  (rotate_frame m _ v _ hv0
                    (hgetD m h1 x _) h1 h2).2.2.1).1.trans
                  (rotate_frame m _ v _ hv0 (hgetD m h1 x _) h1 h2).1)),
            noSlot_setBf (noSlot_setBf
              (rotate_frame (cavlRotate m _ _).1 x v _ hv0 hx
                (rotate_frame m _ v _ hv0 (hgetD m h1 x _) h1 h2).2.1
                (rotate_frame m _ v _ hv0
                  (hgetD m h1 x _) h1 h2).2.2.1).2.1 _ _) _ _,
            noUp_setBf (noUp_setBf
              (rotate_frame (cavlRotate m _ _).1 x v _ hv0 hx
                (rotate_frame m _ v _ hv0 (hgetD m h1 x _) h1 h2).2.1
                (rotate_frame m _ v _ hv0
                  (hgetD m h1 x _) h1 h2).2.2.1).2.2.1 _ _) _ _,
            (rotate_frame (cavlRotate m _ _).1 x v _ hv0 hx
              (rotate_frame m _ v _ hv0 (hgetD m h1 x _) h1 h2).2.1
              (rotate_frame m _ v _ hv0 (hgetD m h1 x _) h1 h2).2.2.1).2.2.2⟩
  · exact ⟨Mem.setBf_ne (Ne.symm hx), noSlot_setBf h1 _ _, noUp_setBf h2 _ _, hx⟩

theorem removeRetraceLoop_frame (fuel : Nat) (m : Mem) (p : Option Nat)
    (r : Bool) (c : Option Nat) (v : Nat) (hv0 : v ≠ 0) (hp : p ≠ some v)
    (h1 : NoSlotTo m v) (h2 : NoUpTo m v) :
    (removeRetraceLoop fuel m p r c).1 v = m v := by
  induction fuel generalizing m p r c hp h1 h2 with
  | zero => rfl
  | succ fuel ih =>
    rcases p with _ | pp
    · rfl
    · have hpv : pp ≠ v := fun hEq => hp (by rw [hEq])
      obtain ⟨hf, hns, hnu, hc1⟩ := adjust_frame m pp v (!r) hv0 hpv h1 h2
      simp only [removeRetraceLoop]
      split
      · exact hf
      · rw [ih _ _ _ _ (hnu _) hns hnu]
        exact hf

theorem spans_slot_to_up {m : Mem} {rootv : Option Nat} {t : STree} {node : Nat}
    (hsp : Spans m none rootv t)
    (hdom : ∀ q : Nat, m q ≠ none → q ∈ t.nodes) :
    ∀ (q : Nat) (s : Bool), (m.get q).lr s = some node →
      (m.get node).up = some q ∧ q ∈ t.nodes := by
  intro q s hq
  by_cases hqt : q ∈ t.nodes
  · have hor : (m.get q).lr0 = some node ∨ (m.get q).lr1 = some node := by
      cases s
      · exact Or.inl (by simpa [Node.lr] using hq)
      · exact Or.inr (by simpa [Node.lr] using hq)
    exact ⟨(spans_child_up hsp q hqt node hor).1, hqt⟩
  · exfalso
    have hmq : m q = none := by
      by_contra hno
      exact hqt (hdom q hno)
    have : (m.get q).lr s = none := by
      cases s <;> simp [Mem.get, hmq, Node.lr]
    rw [this] at hq
    exact Option.noConfusion hq

theorem spans_up_to_slot {m : Mem} {rootv : Option Nat} {t : STree} {node : Nat}
    (hsp : Spans m none rootv t)
    (hdom : ∀ q : Nat, m q ≠ none → q ∈ t.nodes) :
    ∀ q : Nat, (m.get q).up = some node →
      ((m.get node).lr0 = some q ∨ (m.get node).lr1 = some q) ∧ q ∈ t.nodes := by
  intro q hq
  by_cases hqt : q ∈ t.nodes
  · rcases spans_up_src hsp q hqt node hq with ⟨hn, hsl⟩ | ⟨hcontra, -⟩
    · exact ⟨hsl, hqt⟩
    · exact absurd hcontra (by simp)
  · exfalso
    have hmq : m q = none := by
      by_contra hno
      exact hqt (hdom q hno)
    have : (m.get q).up = none := by simp [Mem.get, hmq]
    rw [this] at hq
    exact Option.noConfusion hq

theorem lr0_get_setUp (m : Mem) (p : Nat) (u : Option Nat) (q : Nat) :
    ((m.setUp p u).get q).lr0 = (m.get q).lr0 := by
  by_cases h : q = p
  · subst h; rw [Mem.get_setUp_self]
  · rw [Mem.get_setUp_ne h]

theorem lr1_get_setUp (m : Mem) (p : Nat) (u : Option Nat) (q : Nat) :
    ((m.setUp p u).get q).lr1 = (m.get q).lr1 := by
  by_cases h : q = p
  · subst h; rw [Mem.get_setUp_self]
  · rw [Mem.get_setUp_ne h]

theorem lr_cases {n : Node} {b : Bool} {c : Option Nat} (h : n.lr b = c) :
    n.lr0 = c ∨ n.lr1 = c := by
  cases b
  · exact Or.inl (by simpa [Node.lr] using h)
  · exact Or.inr (by simpa [Node.lr] using h)

theorem only_child {m : Mem} {node ch : Nat} {b : Bool}
    (hone : (m.get node).lr0 = none ∨ (m.get node).lr1 = none)
    (heq : (m.get node).lr b = some ch) :
    ∀ q : Nat, ((m.get node).lr0 = some q ∨ (m.get node).lr1 = some q) →
      q = ch := by
  intro q hq
  cases b
  · have h0 : (m.get node).lr0 = some ch := by simpa [Node.lr] using heq
    have h1 : (m.get node).lr1 = none := by
      rcases hone with h | h
      · rw [h] at h0; exact Option.noConfusion h0
      · exact h
    rcases hq with hc | hc
    · rw [h0] at hc; exact (Option.some.inj hc).symm
    · rw [h1] at hc; exact Option.noConfusion hc
  · have h1 : (m.get node).lr1 = some ch := by simpa [Node.lr] using heq
    have h0 : (m.get node).lr0 = none := by
      rcases hone with h | h
      · exact h
      · rw [h] at h1; exact Option.noConfusion h1
    rcases hq with hc | hc
    · rw [h0] at hc; exact Option.noConfusion hc
    · rw [h1] at hc; exact (Option.some.inj hc).symm

theorem noSlot_relink {M : Mem} {pp node : Nat} {w : Option Nat}
    (hW : w ≠ some node)
    (hother : ∀ q : Nat, q ≠ pp →
      (M.get q).lr0 ≠ some node ∧ (M.get q).lr1 ≠ some node)
    (hdist : ¬((M.get pp).lr0 = some node ∧ (M.get pp).lr1 = some node)) :
    NoSlotTo (M.setLr pp (decide ((M.get pp).lr true = some node)) w) node := by
  intro q
  by_cases hq : q = pp
  · subst hq
    rw [Mem.get_setLr_self]
    by_cases hb : (M.get q).lr1 = some node
    · have hcondd : decide ((M.get q).lr true = some node) = true := by
        simp [Node.lr, hb]
      rw [hcondd, if_pos rfl]
      exact ⟨fun h0 => hdist ⟨h0, hb⟩, hW⟩
    · have hcondd : decide ((M.get q).lr true = some node) = false := by
        simp [Node.lr, hb]
      rw [hcondd]
      simp only [Bool.false_eq_true, if_false]
      exact ⟨hW, hb⟩
  · rw [Mem.get_setLr_ne hq]
    exact hother q hq

theorem removeTopology_single (fuel : Nat) (m : Mem) (rootv : Option Nat)
    (node : Nat) (t : STree)
    (hsp : Spans m none rootv t) (hnd : t.nodes.Nodup)
    (hdom : ∀ q : Nat, m q ≠ none → q ∈ t.nodes)
    (hmem : node ∈ t.nodes)
    (hle : ¬((m.get node).lr0 ≠ none ∧ (m.get node).lr1 ≠ none)) :
    (removeTopology fuel m rootv node).1 node = m node ∧
    NoSlotTo ((removeTopology fuel m rootv node).1) node ∧
    NoUpTo ((removeTopology fuel m rootv node).1) node ∧
    (removeTopology fuel m rootv node).2.2.1 ≠ some node := by
  have hnoself := spans_no_self_slot hsp hnd node hmem
  have hone : (m.get node).lr0 = none ∨ (m.get node).lr1 = none := by
    by_contra hno
    push_neg at hno
    exact hle hno
  have hupne : (m.get node).up ≠ some node :=
    fun h => hnoself ((spans_up_to_slot hsp hdom node h).1)
  simp only [removeTopology]
  rw [if_neg hle]
  split
  · rename_i pp hpp
    have hppnode : pp ≠ node := fun h => hupne (by rw [hpp, h])
    have hppmem : pp ∈ t.nodes := by
      rcases spans_up_src hsp node hmem pp hpp with ⟨h, -⟩ | ⟨h, -⟩
      · exact h
      · exact absurd h (by simp)
    have hother : ∀ q : Nat, q ≠ pp →
        (m.get q).lr0 ≠ some node ∧ (m.get q).lr1 ≠ some node := by
      intro q hq
      constructor
      · intro h0
        have h := (spans_slot_to_up hsp hdom q false
          (by simpa [Node.lr] using h0)).1
        rw [hpp] at h
        exact hq (Option.some.inj h).symm
      · intro h1
        have h := (spans_slot_to_up hsp hdom q true
          (by simpa [Node.lr] using h1)).1
        rw [hpp] at h
        exact hq (Option.some.inj h).symm
    split
    · rename_i ch hch
      dsimp only
      have hchnode : ch ≠ node := by
        intro h
        subst h
        exact hnoself (lr_cases hch)
      have honly := only_child hone hch
      refine ⟨?_, ?_, ?_, hupne⟩
      · rw [Mem.setLr_ne (Ne.symm hppnode), Mem.setUp_ne (Ne.symm hchnode)]
      · refine noSlot_relink ?_ ?_ ?_
        · rw [lr_get_setUp, hch]
          simpa using hchnode
        · intro q hq
          rw [lr0_get_setUp, lr1_get_setUp]
          exact hother q hq
        · rw [lr0_get_setUp, lr1_get_setUp]
          exact spans_slots_distinct hsp hnd pp hppmem node
      · refine noUp_setLr ?_ _ _ _
        intro q
        by_cases hq : q = ch
        · subst hq
          rw [up_get_setUp_self, hpp]
          simpa using hppnode
        · rw [Mem.get_setUp_ne hq]
          intro h
          exact hq (honly q (spans_up_to_slot hsp hdom q h).1)
    · rename_i hch
      dsimp only
      have hnochild : ∀ q : Nat,
          ¬((m.get node).lr0 = some q ∨ (m.get node).lr1 = some q) := by
        rcases h1c : (m.get node).lr1 with _ | c2
        · have h0c : (m.get node).lr0 = none := by
            simpa [Node.lr, h1c] using hch
          intro q hq
          rcases hq with h | h
          · rw [h0c] at h; exact Option.noConfusion h
          · exact Option.noConfusion h
        · simp [Node.lr, h1c] at hch
      refine ⟨?_, ?_, ?_, hupne⟩
      · rw [Mem.setLr_ne (Ne.symm hppnode)]
      · refine noSlot_relink ?_ hother
          (spans_slots_distinct hsp hnd pp hppmem node)
        rw [hch]
        simp
      · refine noUp_setLr ?_ _ _ _
        intro q h
        exact hnochild q (spans_up_to_slot hsp hdom q h).1
  · rename_i hpnone
    have hnos : NoSlotTo m node := by
      intro q
      constructor
      · intro h0
        have h := (spans_slot_to_up hsp hdom q false
          (by simpa [Node.lr] using h0)).1
        rw [hpnone] at h
        exact Option.noConfusion h
      · intro h1
        have h := (spans_slot_to_up hsp hdom q true
          (by simpa [Node.lr] using h1)).1
        rw [hpnone] at h
        exact Option.noConfusion h
    split
    · rename_i ch hch
      dsimp only
      have hchnode : ch ≠ node := by
        intro h
        subst h
        exact hnoself (lr_cases hch)
      have honly := only_child hone hch
      refine ⟨?_, noSlot_setUp hnos _ _, ?_, by simp⟩
      · rw [Mem.setUp_ne (Ne.symm hchnode)]
      · intro q
        by_cases hq : q = ch
        · subst hq
          rw [up_get_setUp_self, hpnone]
          simp
        · rw [Mem.get_setUp_ne hq]
          intro h
          exact hq (honly q (spans_up_to_slot hsp hdom q h).1)
    · rename_i hch
      dsimp only
      have hnochild : ∀ q : Nat,
          ¬((m.get node).lr0 = some q ∨ (m.get node).lr1 = some q) := by
        rcases h1c : (m.get node).lr1 with _ | c2
        · have h0c : (m.get node).lr0 = none := by
            simpa [Node.lr, h1c] using hch
          intro q hq
          rcases hq with h | h
          · rw [h0c] at h; exact Option.noConfusion h
          · exact Option.noConfusion h
        · simp [Node.lr, h1c] at hch
      refine ⟨rfl, hnos, ?_, by simp⟩
      intro q h
      exact hnochild q (spans_up_to_slot hsp hdom q h).1

/-- C4, corrected: cavlRemove never puts the removed node into the detached
state.  The function takes the node by const pointer and never writes to its
record: for a node with at most one child in a well-formed tree the removed
node's record (parent link, both children, balance factor) is bit-for-bit
unchanged in the final memory, so in particular its parent link is not
cleared to NULL whenever it had a parent. -/
theorem cavlRemove_no_detach (fuel : Nat) (m : Mem) (rootv : Option Nat)
    (node : Nat) (t : STree)
    (hsp : Spans m none rootv t) (hnd : t.nodes.Nodup)
    (hdom : ∀ q : Nat, m q ≠ none → q ∈ t.nodes)
    (hmem : node ∈ t.nodes) (hn0 : node ≠ 0)
    (hle : ¬((m.get node).lr0 ≠ none ∧ (m.get node).lr1 ≠ none)) :
    (cavlRemove fuel m (some rootv) (some node)).1 node = m node := by
  obtain ⟨hf, hns, hnu, hp⟩ :=
    removeTopology_single fuel m rootv node t hsp hnd hdom hmem hle
  have hglue : (cavlRemove fuel m (some rootv) (some node)).1 =
      (removeRetraceLoop fuel (removeTopology fuel m rootv node).1
        (removeTopology fuel m rootv node).2.2.1
        (removeTopology fuel m rootv node).2.2.2 none).1 := by
    simp only [cavlRemove]
    split <;> rfl
  rw [hglue, removeRetraceLoop_frame fuel _ _ _ _ node hn0 hp hns hnu]
  exact hf

/-- Counterexample to the claimed detached state: removing the leaf 1 from
the valid two-node tree rooted at 2 succeeds (the root reference is kept),
yet afterwards the removed node's parent link still points at 2 instead of
being NULL. -/
theorem cavlRemove_no_detach_cex :
    checkInv mem2 20 (some 2) = true ∧
    (cavlRemove 10 mem2 (some (some 2)) (some 1)).2 = some (some 2) ∧
    ((cavlRemove 10 mem2 (some (some 2)) (some 1)).1.get 1).up = some 2 ∧
    ((cavlRemove 10 mem2 (some (some 2)) (some 1)).1.get 1).up ≠ none := by
  refine ⟨by decide, by decide, by decide, by decide⟩

/-- Witness instantiating the no-detach theorem on the concrete two-node
tree: the record of the removed leaf 1 is unchanged. -/
theorem cavlRemove_no_detach_witness :
    (cavlRemove 10 mem2 (some (some 2)) (some 1)).1 1 = mem2 1 :=
  cavlRemove_no_detach 10 mem2 (some 2) 1
    (STree.node 2 (STree.node 1 .leaf .leaf) .leaf)
    (Spans.node none 2 (STree.node 1 .leaf .leaf) .leaf
      ⟨none, some 1, none, -1⟩ rfl rfl
      (Spans.node (some 2) 1 .leaf .leaf ⟨some 2, none, none, 0⟩ rfl rfl
        (Spans.leaf _) (Spans.leaf _))
      (Spans.leaf _))
    (by decide)
    (by
      intro q hq
      by_cases h2 : q = 2
      · subst h2; decide
      · by_cases h1 : q = 1
        · subst h1; decide
        · exfalso
          apply hq
          simp only [mem2, memOf, List.lookup]
          rw [show (q == 2) = false from by simp [h2],
            show (q == 1) = false from by simp [h1]])
    (by decide) (by decide) (by decide)

end Cavl
